import Mathlib

/-!
Verification development for the LRX Radar ingestion/correlation core.

This file gives a shallow embedding, in Lean 4, of the parts of the
repository relevant to the frozen claims:

  * `app/services.py`   — dedupe hash, threat-event upsert (normalizer/dedup),
  * `app/campaigns.py`  — campaign correlator (grouping, scoring, ids),
  * `workers/certstream.py` — lookalike-domain brand matcher
    (including a faithful embedding of CPython `difflib.SequenceMatcher`
    as used by `_find_brand_match`).

Python `str` is modelled by `String`/`List Char` (ASCII case mapping),
machine integers by `Nat`/`Int` (Python ints are unbounded), Python floats
arising from `/` and `difflib` ratios by exact rationals `ℚ`, and
`datetime` values by integer timestamps.  Dictionaries with insertion
order are modelled as association lists.
-/

set_option maxRecDepth 100000

namespace LrxRadar

/-! ## Basic string helpers (Python `str` operations, ASCII fragment) -/

/-- Python `str.lower()` (ASCII fragment, as exercised by the repository). -/
def pyLower (l : List Char) : List Char := l.map Char.toLower

/-- A character kept by the repository's `re.sub(r"[^a-z0-9]", "", ...)`
normalizers (applied to lower-cased text). -/
def isLowerAlnum (c : Char) : Bool := ('a' ≤ c && c ≤ 'z') || ('0' ≤ c && c ≤ '9')

/-- `_clean_text` / `_normalize`: `re.sub(r"[^a-z0-9]", "", value.lower())`. -/
def cleanChars (l : List Char) : List Char := (pyLower l).filter isLowerAlnum

/-- String-level wrapper for `_clean_text` (`workers/certstream.py`) and
`_normalize` (`app/campaigns.py`), which are the same function. -/
def cleanText (s : String) : String := ⟨cleanChars s.data⟩

/-- Python `s.lstrip("*.")`: drop the longest leading run of `'*'`/`'.'`. -/
def lstripStarDot (l : List Char) : List Char :=
  l.dropWhile (fun c => c = '*' || c = '.')

/-- Python `s.strip()` on both ends (whitespace). -/
def pyStrip (l : List Char) : List Char :=
  (l.dropWhile Char.isWhitespace).reverse.dropWhile Char.isWhitespace |>.reverse

/-- Helper for `re.split(r"[^a-z0-9]+", s)` followed by dropping empty
tokens: returns `(current run, finished runs)` scanning from the left. -/
def splitRunsGo : List Char → List Char × List (List Char)
  | [] => ([], [])
  | c :: cs =>
    let (cur, rest) := splitRunsGo cs
    if isLowerAlnum c then (c :: cur, rest)
    else ([], if cur = [] then rest else cur :: rest)

/-- `[token for token in re.split(r"[^a-z0-9]+", s) if token]`: the maximal
runs of `[a-z0-9]` characters of `s`, in order. -/
def alnumRuns (l : List Char) : List (List Char) :=
  let (cur, rest) := splitRunsGo l
  if cur = [] then rest else cur :: rest

/-- Python `str.title()` (ASCII fragment): uppercase every letter that does
not follow a letter, lowercase the other letters. -/
def pyTitleGo : Bool → List Char → List Char
  | _, [] => []
  | prevAlpha, c :: cs =>
    if c.isAlpha then
      (if prevAlpha then c.toLower else c.toUpper) :: pyTitleGo true cs
    else
      c :: pyTitleGo false cs

/-- Python `str.title()` on a string. -/
def pyTitle (s : String) : String := ⟨pyTitleGo false s.data⟩

/-- Does `l` start with `n`? (helper for the substring test). -/
def headMatches : List Char → List Char → Bool
  | [], _ => true
  | _ :: _, [] => false
  | a :: ns, b :: hs => a == b && headMatches ns hs

/-- Python `needle in haystack` for strings: contiguous-substring test. -/
def containsSub (n : List Char) : List Char → Bool
  | [] => n.isEmpty
  | c :: hs => headMatches n (c :: hs) || containsSub n hs

/-- Every list starts with itself. -/
theorem headMatches_self (l : List Char) : headMatches l l = true := by
  induction l with
  | nil => rfl
  | cons c cs ih => simp [headMatches, ih]

/-- Every string contains itself as a substring. -/
theorem containsSub_self (l : List Char) : containsSub l l = true := by
  cases l with
  | nil => rfl
  | cons c cs => simp [containsSub, headMatches_self]

/-- Only the empty string is a substring of the empty string. -/
theorem containsSub_nil {n : List Char} (h : containsSub n [] = true) : n = [] := by
  cases n with
  | nil => rfl
  | cons c cs => simp [containsSub] at h

/-- Python `s.replace(old, new)` for the single-character replacements used
by the repository (here: `"-"` → `" "`). -/
def replaceDashSpace (s : String) : String :=
  ⟨s.data.map (fun c => if c = '-' then ' ' else c)⟩

/-- Members of the maximal-alnum-run splitter are nonempty runs of
lower-alnum characters drawn from the input. -/
theorem splitRunsGo_mem (l : List Char) :
    (∀ c ∈ (splitRunsGo l).1, isLowerAlnum c = true ∧ c ∈ l) ∧
    (∀ t ∈ (splitRunsGo l).2, t ≠ [] ∧ ∀ c ∈ t, isLowerAlnum c = true ∧ c ∈ l) := by
  induction l with
  | nil => simp [splitRunsGo]
  | cons c cs ih =>
    obtain ⟨ih1, ih2⟩ := ih
    by_cases hc : isLowerAlnum c
    · refine ⟨?_, ?_⟩
      · intro x hx
        simp only [splitRunsGo, hc, if_pos] at hx
        rcases List.mem_cons.mp hx with rfl | hx
        · exact ⟨hc, List.mem_cons_self _ _⟩
        · exact ⟨(ih1 x hx).1, List.mem_cons_of_mem _ (ih1 x hx).2⟩
      · intro t ht
        simp only [splitRunsGo, hc, if_pos] at ht
        obtain ⟨hne, hall⟩ := ih2 t ht
        exact ⟨hne, fun x hx => ⟨(hall x hx).1, List.mem_cons_of_mem _ (hall x hx).2⟩⟩
    · have hc' : isLowerAlnum c = false := by simpa using hc
      refine ⟨?_, ?_⟩
      · intro x hx
        simp [splitRunsGo, hc'] at hx
      · intro t ht
        simp only [splitRunsGo, hc', Bool.false_eq_true, if_false] at ht
        by_cases hcur : (splitRunsGo cs).1 = []
        · simp only [hcur, if_pos] at ht
          obtain ⟨hne, hall⟩ := ih2 t ht
          exact ⟨hne, fun x hx => ⟨(hall x hx).1, List.mem_cons_of_mem _ (hall x hx).2⟩⟩
        · simp only [hcur, if_neg, not_false_iff] at ht
          rcases List.mem_cons.mp ht with rfl | ht
          · exact ⟨hcur, fun x hx => ⟨(ih1 x hx).1, List.mem_cons_of_mem _ (ih1 x hx).2⟩⟩
          · obtain ⟨hne, hall⟩ := ih2 t ht
            exact ⟨hne, fun x hx => ⟨(hall x hx).1, List.mem_cons_of_mem _ (hall x hx).2⟩⟩

/-- Every token produced by `alnumRuns` is a nonempty run of lower-alnum
characters of the input. -/
theorem alnumRuns_mem {l : List Char} {t : List Char} (ht : t ∈ alnumRuns l) :
    t ≠ [] ∧ ∀ c ∈ t, isLowerAlnum c = true ∧ c ∈ l := by
  obtain ⟨h1, h2⟩ := splitRunsGo_mem l
  unfold alnumRuns at ht
  by_cases hcur : (splitRunsGo l).1 = []
  · simp only [hcur, if_pos] at ht
    exact h2 t ht
  · simp only [hcur, if_neg, not_false_iff] at ht
    rcases List.mem_cons.mp ht with rfl | ht
    · exact ⟨hcur, fun c hc => h1 c hc⟩
    · exact h2 t ht

/-! ## UTF-8, SHA-256 and SHA-1

`build_dedupe_hash` calls `hashlib.sha256(key.encode("utf-8")).hexdigest()`
and `_campaign_id` calls `hashlib.sha1(...).hexdigest()`.  Both hash
functions are implemented here over byte lists (bytes as `Nat < 256`),
and validated against the standard test vectors below. -/

/-- UTF-8 encoding of one code point (Python `str.encode("utf-8")`). -/
def utf8Char (c : Char) : List Nat :=
  let n := c.toNat
  if n < 128 then [n]
  else if n < 2048 then [192 + n / 64, 128 + n % 64]
  else if n < 65536 then [224 + n / 4096, 128 + n / 64 % 64, 128 + n % 64]
  else [240 + n / 262144, 128 + n / 4096 % 64, 128 + n / 64 % 64, 128 + n % 64]

/-- `s.encode("utf-8")` as a byte list. -/
def utf8Bytes (s : String) : List Nat := s.data.flatMap utf8Char

/-- Truncation to a 32-bit word. -/
def w32 (n : Nat) : Nat := n % 4294967296

/-- 32-bit rotate right by `k` (for `0 < k < 32`, inputs already 32-bit). -/
def rotr32 (k n : Nat) : Nat := w32 (n / 2 ^ k + n % 2 ^ k * 2 ^ (32 - k))

/-- 32-bit rotate left by `k` (for `0 < k < 32`, inputs already 32-bit). -/
def rotl32 (k n : Nat) : Nat := w32 (n * 2 ^ k + n / 2 ^ (32 - k))

/-- `k` bytes of `n`, big-endian. -/
def beBytes (k n : Nat) : List Nat :=
  (List.range k).map (fun i => n / 2 ^ (8 * (k - 1 - i)) % 256)

/-- Big-endian 32-bit word from a list of (up to four) bytes. -/
def beWord (bs : List Nat) : Nat := bs.foldl (fun acc b => acc * 256 + b) 0

/-- Merkle–Damgård padding shared by SHA-256 and SHA-1: append `0x80`,
then zeros to 56 mod 64 bytes, then the 64-bit big-endian bit length. -/
def padMessage (msg : List Nat) : List Nat :=
  let padZeros := (55 + 64 - msg.length % 64) % 64
  msg ++ [128] ++ List.replicate padZeros 0 ++ beBytes 8 (8 * msg.length)

/-- Split a byte list into 64-byte chunks (fuel-indexed; the fuel
`l.length + 1` always suffices since each step consumes input). -/
def chunksGo : Nat → List Nat → List (List Nat)
  | 0, _ => []
  | _, [] => []
  | fuel + 1, l => l.take 64 :: chunksGo fuel (l.drop 64)

/-- The 64-byte chunks of a byte list, in order. -/
def chunks64 (l : List Nat) : List (List Nat) := chunksGo (l.length + 1) l

/-- The sixteen big-endian 32-bit words of one 64-byte chunk. -/
def chunkWords (chunk : List Nat) : List Nat :=
  (List.range 16).map (fun i => beWord ((chunk.drop (4 * i)).take 4))

/-- SHA-256 working state (eight 32-bit words). -/
structure Hash8 where
  a : Nat
  b : Nat
  c : Nat
  d : Nat
  e : Nat
  f : Nat
  g : Nat
  h : Nat
deriving DecidableEq

/-- The 64 SHA-256 round constants. -/
def sha256K : List Nat :=
  [1116352408, 1899447441, 3049323471, 3921009573, 961987163,
   1508970993, 2453635748, 2870763221, 3624381080, 310598401, 607225278,
   1426881987, 1925078388, 2162078206, 2614888103, 3248222580,
   3835390401, 4022224774, 264347078, 604807628, 770255983, 1249150122,
   1555081692, 1996064986, 2554220882, 2821834349, 2952996808,
   3210313671, 3336571891, 3584528711, 113926993, 338241895, 666307205,
   773529912, 1294757372, 1396182291, 1695183700, 1986661051,
   2177026350, 2456956037, 2730485921, 2820302411, 3259730800,
   3345764771, 3516065817, 3600352804, 4094571909, 275423344, 430227734,
   506948616, 659060556, 883997877, 958139571, 1322822218, 1537002063,
   1747873779, 1955562222, 2024104815, 2227730452, 2361852424,
   2428436474, 2756734187, 3204031479, 3329325298]

/-- One step of the SHA-256 message-schedule extension. -/
def sha256Extend (w : List Nat) : List Nat :=
  let L := w.length
  let x0 := w.getD (L - 15) 0
  let x1 := w.getD (L - 2) 0
  let s0 := (rotr32 7 x0) ^^^ (rotr32 18 x0) ^^^ (x0 >>> 3)
  let s1 := (rotr32 17 x1) ^^^ (rotr32 19 x1) ^^^ (x1 >>> 10)
  w ++ [w32 (w.getD (L - 16) 0 + s0 + w.getD (L - 7) 0 + s1)]

/-- The full 64-word SHA-256 message schedule of one chunk. -/
def sha256Sched (chunk : List Nat) : List Nat :=
  (List.range 48).foldl (fun w _ => sha256Extend w) (chunkWords chunk)

/-- One SHA-256 compression round (input `kw` is `k[i] + w[i]`). -/
def sha256Round (st : Hash8) (kw : Nat) : Hash8 :=
  let S1 := (rotr32 6 st.e) ^^^ (rotr32 11 st.e) ^^^ (rotr32 25 st.e)
  let ch := (st.e &&& st.f) ^^^ ((st.e ^^^ 4294967295) &&& st.g)
  let temp1 := w32 (st.h + S1 + ch + kw)
  let S0 := (rotr32 2 st.a) ^^^ (rotr32 13 st.a) ^^^ (rotr32 22 st.a)
  let maj := (st.a &&& st.b) ^^^ (st.a &&& st.c) ^^^ (st.b &&& st.c)
  let temp2 := w32 (S0 + maj)
  ⟨w32 (temp1 + temp2), st.a, st.b, st.c, w32 (st.d + temp1), st.e, st.f, st.g⟩

/-- SHA-256 compression of one 64-byte chunk into the running state. -/
def sha256Compress (st : Hash8) (chunk : List Nat) : Hash8 :=
  let kws := (sha256Sched chunk).zipWith (fun w k => w32 (k + w)) sha256K
  let fin := kws.foldl sha256Round st
  ⟨w32 (st.a + fin.a), w32 (st.b + fin.b), w32 (st.c + fin.c), w32 (st.d + fin.d),
   w32 (st.e + fin.e), w32 (st.f + fin.f), w32 (st.g + fin.g), w32 (st.h + fin.h)⟩

/-- The SHA-256 initial state. -/
def sha256Init : Hash8 :=
  ⟨1779033703, 3144134277, 1013904242, 2773480762,
   1359893119, 2600822924, 528734635, 1541459225⟩

/-- SHA-256 over a byte list, as eight 32-bit words. -/
def sha256Words (msg : List Nat) : Hash8 :=
  (chunks64 (padMessage msg)).foldl sha256Compress sha256Init

/-- The 32 digest bytes of a SHA-256 state. -/
def hash8Bytes (st : Hash8) : List Nat :=
  beBytes 4 st.a ++ beBytes 4 st.b ++ beBytes 4 st.c ++ beBytes 4 st.d ++
  beBytes 4 st.e ++ beBytes 4 st.f ++ beBytes 4 st.g ++ beBytes 4 st.h

/-- Lower-case hex digit for a nibble. -/
def hexDigit (n : Nat) : Char := "0123456789abcdef".data.getD n '0'

/-- Lower-case hex string of a byte list (two digits per byte). -/
def hexOfBytes (bs : List Nat) : String :=
  ⟨bs.flatMap (fun b => [hexDigit (b / 16 % 16), hexDigit (b % 16)])⟩

/-- `hashlib.sha256(s.encode("utf-8")).hexdigest()`. -/
def sha256Hex (s : String) : String := hexOfBytes (hash8Bytes (sha256Words (utf8Bytes s)))

/-- SHA-1 working state (five 32-bit words). -/
structure Hash5 where
  a : Nat
  b : Nat
  c : Nat
  d : Nat
  e : Nat
deriving DecidableEq

/-- One step of the SHA-1 message-schedule extension (rotate-left 1). -/
def sha1Extend (w : List Nat) : List Nat :=
  let L := w.length
  w ++ [rotl32 1 ((w.getD (L - 3) 0) ^^^ (w.getD (L - 8) 0) ^^^
                  (w.getD (L - 14) 0) ^^^ (w.getD (L - 16) 0))]

/-- The full 80-word SHA-1 message schedule of one chunk. -/
def sha1Sched (chunk : List Nat) : List Nat :=
  (List.range 64).foldl (fun w _ => sha1Extend w) (chunkWords chunk)

/-- The SHA-1 round function for round `t`. -/
def sha1F (t b c d : Nat) : Nat :=
  if t < 20 then (b &&& c) ||| ((b ^^^ 4294967295) &&& d)
  else if t < 40 then b ^^^ c ^^^ d
  else if t < 60 then (b &&& c) ||| (b &&& d) ||| (c &&& d)
  else b ^^^ c ^^^ d

/-- The SHA-1 round constant for round `t`. -/
def sha1KOf (t : Nat) : Nat :=
  if t < 20 then 1518500249
  else if t < 40 then 1859775393
  else if t < 60 then 2400959708
  else 3395469782

/-- One SHA-1 compression round (`tw` is the pair `(t, w[t])`). -/
def sha1Round (st : Hash5) (tw : Nat × Nat) : Hash5 :=
  let temp := w32 (rotl32 5 st.a + sha1F tw.1 st.b st.c st.d + st.e + sha1KOf tw.1 + tw.2)
  ⟨temp, st.a, rotl32 30 st.b, st.c, st.d⟩

/-- SHA-1 compression of one 64-byte chunk into the running state. -/
def sha1Compress (st : Hash5) (chunk : List Nat) : Hash5 :=
  let ws := (List.range 80).zip (sha1Sched chunk)
  let fin := ws.foldl sha1Round st
  ⟨w32 (st.a + fin.a), w32 (st.b + fin.b), w32 (st.c + fin.c),
   w32 (st.d + fin.d), w32 (st.e + fin.e)⟩

/-- The SHA-1 initial state. -/
def sha1Init : Hash5 := ⟨1732584193, 4023233417, 2562383102, 271733878, 3285377520⟩

/-- SHA-1 over a byte list, as five 32-bit words. -/
def sha1Words (msg : List Nat) : Hash5 :=
  (chunks64 (padMessage msg)).foldl sha1Compress sha1Init

/-- The 20 digest bytes of a SHA-1 state. -/
def hash5Bytes (st : Hash5) : List Nat :=
  beBytes 4 st.a ++ beBytes 4 st.b ++ beBytes 4 st.c ++ beBytes 4 st.d ++ beBytes 4 st.e

/-- `hashlib.sha1(s.encode("utf-8")).hexdigest()`. -/
def sha1Hex (s : String) : String := hexOfBytes (hash5Bytes (sha1Words (utf8Bytes s)))

/-- Validation: SHA-256 standard test vector for the empty message. -/
theorem sha256_empty_vector :
    sha256Hex "" = "e3b0c44298fc1c149afbf4c8996fb92427ae41e4649b934ca495991b7852b855" := by
  decide

/-- Validation: SHA-256 standard test vector for `"abc"`. -/
theorem sha256_abc_vector :
    sha256Hex "abc" = "ba7816bf8f01cfea414140de5dae2223b00361a396177a9cb410ff61f20015ad" := by
  decide

/-- Validation: SHA-1 standard test vector for `"abc"`. -/
theorem sha1_abc_vector :
    sha1Hex "abc" = "a9993e364706816aba3e25717850c26c9cd0d89d" := by
  decide

/-! ## `app/services.py`: payloads, threat events, dedupe hash, upsert -/

/-- A raw queue payload (`dict`) as consumed by `upsert_threat_event`.
`payload.get(key)` misses are `none`; `event_meta` models the JSON object
as an ordered association list (a non-`dict` value is modelled as `none`,
which `upsert_threat_event` ignores exactly like the source does). -/
structure Payload where
  source : Option String
  indicator_type : Option String
  indicator_value : Option String
  brand_target : Option String
  country : Option String
  country_code : Option String
  category : Option String
  attack_type : Option String
  primary_target : Option String
  volume : Option Int
  ato_hits : Option Int
  confidence : Option Int
  dedupe_hash : Option String
  event_meta : Option (List (String × String))
  occurred_at : Option String
deriving DecidableEq

/-- `build_dedupe_hash` (`app/services.py`): SHA-256 over the pipe-joined
six-tuple, each missing field read as `""`. -/
def build_dedupe_hash (p : Payload) : String :=
  let key := String.intercalate "|"
    [p.source.getD "", p.indicator_type.getD "", p.indicator_value.getD "",
     p.brand_target.getD "", p.country.getD "", p.category.getD ""]
  sha256Hex key

/-- A stored `ThreatEvent` row (`app/models.py`).  Timestamps are modelled
as integers; `id` and the alert relationship are irrelevant to the claims. -/
structure ThreatEvent where
  source : String
  indicator_type : String
  indicator_value : String
  category : String
  country : String
  country_code : String
  brand_target : String
  attack_type : String
  primary_target : String
  volume : Int
  ato_hits : Int
  confidence : Int
  dedupe_hash : String
  event_meta : List (String × String)
  first_seen : Int
  last_seen : Int
  occurred_at : Int
deriving DecidableEq

/-- Order-preserving integer encoding of an ISO date-time's digit fields. -/
def isoEncode (y1 y2 y3 y4 m1 m2 d1 d2 h1 h2 n1 n2 s1 s2 : Char) : Int :=
  let v : Char → Int := fun c => (c.toNat : Int) - 48
  (((((v y1 * 10 + v y2) * 10 + v y3) * 10 + v y4) * 13 + v m1 * 10 + v m2) * 32 +
      v d1 * 10 + v d2) * 86400 +
    ((v h1 * 10 + v h2) * 60 + v n1 * 10 + v n2) * 60 + v s1 * 10 + v s2

/-- `_safe_datetime` (`app/services.py`): best-effort ISO-8601 parsing,
`none` for a missing/empty/malformed value.  The numeric encoding of the
accepted `YYYY-MM-DDTHH:MM:SS` core is an order-preserving abstraction of
CPython `datetime.fromisoformat`; no claim depends on the encoding. -/
def _safe_datetime (value : Option String) : Option Int :=
  match value with
  | none => none
  | some s =>
    match s.data with
    | [y1, y2, y3, y4, '-', m1, m2, '-', d1, d2] =>
      if [y1, y2, y3, y4, m1, m2, d1, d2].all Char.isDigit then
        some (isoEncode y1 y2 y3 y4 m1 m2 d1 d2 '0' '0' '0' '0' '0' '0')
      else none
    | y1 :: y2 :: y3 :: y4 :: '-' :: m1 :: m2 :: '-' :: d1 :: d2 :: 'T' ::
        h1 :: h2 :: ':' :: n1 :: n2 :: ':' :: s1 :: s2 :: _ =>
      if [y1, y2, y3, y4, m1, m2, d1, d2, h1, h2, n1, n2, s1, s2].all Char.isDigit then
        some (isoEncode y1 y2 y3 y4 m1 m2 d1 d2 h1 h2 n1 n2 s1 s2)
      else none
    | _ => none

/-- The dedupe hash used by one `upsert_threat_event` call:
`payload.get("dedupe_hash") or build_dedupe_hash(payload)` (Python `or`
recomputes on a missing or empty value). -/
def payloadHash (p : Payload) : String :=
  match p.dedupe_hash with
  | some s => if s = "" then build_dedupe_hash p else s
  | none => build_dedupe_hash p

/-- Dictionary lookup in an ordered association list. -/
def metaLookup (m : List (String × String)) (k : String) : Option String :=
  (m.find? (fun kv => kv.1 = k)).map (fun kv => kv.2)

/-- Python `{**old, **inc}`: keys of `old` in order (values overridden by
`inc` where present), then the new keys of `inc` in order. -/
def dictMerge (old inc : List (String × String)) : List (String × String) :=
  old.map (fun kv => (kv.1, (metaLookup inc kv.1).getD kv.2)) ++
    inc.filter (fun kv => (metaLookup old kv.1).isNone)

/-- The freshly inserted `ThreatEvent` of `upsert_threat_event`'s miss
branch (field defaults as in the source; `first_seen`/`last_seen` take the
store's `now` default). -/
def newThreatEvent (p : Payload) (h : String) (now : Int) : ThreatEvent :=
  ⟨p.source.getD "unknown", p.indicator_type.getD "domain",
   p.indicator_value.getD "unknown", p.category.getD "Unknown",
   p.country.getD "Unknown", p.country_code.getD "--",
   p.brand_target.getD "Unknown", p.attack_type.getD "Unknown",
   p.primary_target.getD "Unknown", p.volume.getD 1, p.ato_hits.getD 0,
   p.confidence.getD 50, h, p.event_meta.getD [], now, now,
   (_safe_datetime p.occurred_at).getD now⟩

/-- The merge branch of `upsert_threat_event`: cumulate `volume`/`ato_hits`,
take the max confidence, refresh `last_seen`/`occurred_at`, shallow-merge
metadata; every other column is left as stored. -/
def mergeThreatEvent (e : ThreatEvent) (p : Payload) (now : Int) : ThreatEvent :=
  ⟨e.source, e.indicator_type, e.indicator_value, e.category, e.country,
   e.country_code, e.brand_target, e.attack_type, e.primary_target,
   e.volume + p.volume.getD 1, e.ato_hits + p.ato_hits.getD 0,
   max e.confidence (p.confidence.getD e.confidence), e.dedupe_hash,
   (match p.event_meta with
    | some m => dictMerge e.event_meta m
    | none => e.event_meta),
   e.first_seen, now, now⟩

/-- `upsert_threat_event` scan: the store's unique lookup by dedupe hash is
modelled as replace-first-match (at most one row can match under the
`uq_threat_events_dedupe_hash` constraint), insert-at-end on a miss. -/
def upsertGo (p : Payload) (now : Int) (h : String) : List ThreatEvent → List ThreatEvent
  | [] => [newThreatEvent p h now]
  | e :: rest =>
    if e.dedupe_hash = h then mergeThreatEvent e p now :: rest
    else e :: upsertGo p now h rest

/-- `upsert_threat_event` (`app/services.py`) over a store snapshot. -/
def upsert_threat_event (db : List ThreatEvent) (p : Payload) (now : Int) : List ThreatEvent :=
  upsertGo p now (payloadHash p) db

/-- When no stored row carries hash `h`, an upsert appends the new row. -/
theorem upsertGo_miss (p : Payload) (now : Int) (h : String) (db : List ThreatEvent)
    (hmiss : ∀ e ∈ db, e.dedupe_hash ≠ h) :
    upsertGo p now h db = db ++ [newThreatEvent p h now] := by
  induction db with
  | nil => rfl
  | cons e rest ih =>
    have hne : e.dedupe_hash ≠ h := hmiss e (List.mem_cons_self _ _)
    simp only [upsertGo, if_neg hne, List.cons_append, List.cons.injEq, true_and]
    exact ih fun x hx => hmiss x (List.mem_cons_of_mem _ hx)

/-- When the first row carrying hash `h` is `e`, an upsert replaces exactly
that row by its merge and leaves everything else untouched. -/
theorem upsertGo_hit (p : Payload) (now : Int) (h : String)
    (db1 db2 : List ThreatEvent) (e : ThreatEvent)
    (hmiss : ∀ x ∈ db1, x.dedupe_hash ≠ h) (he : e.dedupe_hash = h) :
    upsertGo p now h (db1 ++ e :: db2) = db1 ++ mergeThreatEvent e p now :: db2 := by
  induction db1 with
  | nil => simp [upsertGo, he]
  | cons x rest ih =>
    have hne : x.dedupe_hash ≠ h := hmiss x (List.mem_cons_self _ _)
    simp only [List.cons_append, upsertGo, if_neg hne, List.cons.injEq, true_and]
    exact ih fun y hy => hmiss y (List.mem_cons_of_mem _ hy)

/-- Every hex digit produced by `hexDigit` is a lower-case hex character. -/
theorem hexDigit_mem (n : Nat) : hexDigit n ∈ "0123456789abcdef".data := by
  unfold hexDigit
  rcases Nat.lt_or_ge n ("0123456789abcdef".data.length) with h | h
  · rw [List.getD_eq_getElem?_getD, List.getElem?_eq_getElem h]
    exact List.getElem_mem _
  · rw [List.getD_eq_getElem?_getD, List.getElem?_eq_none h]
    decide

/-- Every character of a `hexOfBytes` rendering is a lower-case hex digit. -/
theorem hexOfBytes_mem (bs : List Nat) :
    ∀ c ∈ (hexOfBytes bs).data, c ∈ "0123456789abcdef".data := by
  intro c hc
  simp only [hexOfBytes, List.mem_flatMap] at hc
  obtain ⟨b, _, hcb⟩ := hc
  simp only [List.mem_cons, List.not_mem_nil, or_false] at hcb
  rcases hcb with rfl | rfl <;> exact hexDigit_mem _

/-- A `hexOfBytes` rendering has two characters per byte. -/
theorem hexOfBytes_length (bs : List Nat) : (hexOfBytes bs).length = 2 * bs.length := by
  induction bs with
  | nil => rfl
  | cons b rest ih =>
    simp only [hexOfBytes, String.length, List.flatMap_cons] at ih ⊢
    simp only [List.length_append, ih, List.length_cons, List.length_nil]
    omega

/-- A SHA-256 hex digest has 64 characters. -/
theorem sha256Hex_length (s : String) : (sha256Hex s).length = 64 := by
  unfold sha256Hex
  rw [hexOfBytes_length]
  have h32 : ∀ st : Hash8, (hash8Bytes st).length = 32 := by
    intro st; simp [hash8Bytes, beBytes]
  rw [h32]

/-- **C7.** `build_dedupe_hash` returns the lower-case hexadecimal SHA-256
digest of the pipe-joined string
`source|indicatorType|indicatorValue|brandTarget|country|category`, with
each missing field replaced by the empty string. -/
theorem build_dedupe_hash_spec (p : Payload) :
    build_dedupe_hash p = sha256Hex (String.intercalate "|"
      [p.source.getD "", p.indicator_type.getD "", p.indicator_value.getD "",
       p.brand_target.getD "", p.country.getD "", p.category.getD ""]) ∧
    (build_dedupe_hash p).length = 64 ∧
    ∀ c ∈ (build_dedupe_hash p).data, c ∈ "0123456789abcdef".data :=
  ⟨rfl, sha256Hex_length _, fun c hc => hexOfBytes_mem _ c hc⟩

/-- **C1.** Two raw threat payloads (no precomputed `dedupe_hash` key, as
produced by every producer in the repository) agreeing on
`(source, indicatorType, indicatorValue, brandTarget, country, category)`
and upserted in sequence into a store with no record of that hash leave
exactly one stored record for the hash, with summed `volume`, summed
`atoHits` and max `confidence`. -/
theorem upsert_twice_dedupes (db : List ThreatEvent) (p1 p2 : Payload)
    (now1 now2 : Int) (v1 v2 a1 a2 c1 c2 : Int)
    (hsrc : p1.source = p2.source) (hty : p1.indicator_type = p2.indicator_type)
    (hval : p1.indicator_value = p2.indicator_value)
    (hbr : p1.brand_target = p2.brand_target) (hco : p1.country = p2.country)
    (hca : p1.category = p2.category)
    (hd1 : p1.dedupe_hash = none) (hd2 : p2.dedupe_hash = none)
    (hv1 : p1.volume = some v1) (hv2 : p2.volume = some v2)
    (ha1 : p1.ato_hits = some a1) (ha2 : p2.ato_hits = some a2)
    (hc1 : p1.confidence = some c1) (hc2 : p2.confidence = some c2)
    (hfresh : ∀ e ∈ db, e.dedupe_hash ≠ build_dedupe_hash p1) :
    ((upsert_threat_event (upsert_threat_event db p1 now1) p2 now2).filter
        (fun e => e.dedupe_hash = build_dedupe_hash p1)).length = 1 ∧
    ∀ e ∈ (upsert_threat_event (upsert_threat_event db p1 now1) p2 now2).filter
        (fun e => e.dedupe_hash = build_dedupe_hash p1),
      e.volume = v1 + v2 ∧ e.ato_hits = a1 + a2 ∧ e.confidence = max c1 c2 := by
  have hash2 : build_dedupe_hash p2 = build_dedupe_hash p1 := by
    unfold build_dedupe_hash
    rw [hsrc, hty, hval, hbr, hco, hca]
  have hph1 : payloadHash p1 = build_dedupe_hash p1 := by
    simp [payloadHash, hd1]
  have hph2 : payloadHash p2 = build_dedupe_hash p1 := by
    simp [payloadHash, hd2, hash2]
  have step1 : upsert_threat_event db p1 now1 =
      db ++ [newThreatEvent p1 (build_dedupe_hash p1) now1] := by
    unfold upsert_threat_event
    rw [hph1]
    exact upsertGo_miss _ _ _ _ hfresh
  have step2 : upsert_threat_event (upsert_threat_event db p1 now1) p2 now2 =
      db ++ [mergeThreatEvent (newThreatEvent p1 (build_dedupe_hash p1) now1) p2 now2] := by
    rw [step1]
    unfold upsert_threat_event
    rw [hph2]
    have := upsertGo_hit p2 now2 (build_dedupe_hash p1) db []
      (newThreatEvent p1 (build_dedupe_hash p1) now1) hfresh rfl
    simpa using this
  rw [step2, List.filter_append]
  have hnil : db.filter (fun e => e.dedupe_hash = build_dedupe_hash p1) = [] :=
    List.filter_eq_nil_iff.mpr (fun a ha => by simpa using hfresh a ha)
  have hone : [mergeThreatEvent (newThreatEvent p1 (build_dedupe_hash p1) now1) p2 now2].filter
      (fun e => e.dedupe_hash = build_dedupe_hash p1) =
      [mergeThreatEvent (newThreatEvent p1 (build_dedupe_hash p1) now1) p2 now2] := by
    simp [mergeThreatEvent, newThreatEvent]
  rw [hnil, hone]
  refine ⟨rfl, ?_⟩
  intro e he
  simp only [List.nil_append, List.mem_singleton] at he
  subst he
  refine ⟨?_, ?_, ?_⟩
  · simp [mergeThreatEvent, newThreatEvent, hv1, hv2]
  · simp [mergeThreatEvent, newThreatEvent, ha1, ha2]
  · simp [mergeThreatEvent, newThreatEvent, hc1, hc2]

/-- First payload of the spec's end-to-end dedupe scenario. -/
def scenarioPayload1 : Payload :=
  ⟨some "seed", some "domain", some "micr0soft-login-support.com", some "Microsoft",
   some "Russia", some "RU", some "Typosquatting", some "Credential Harvesting",
   some "Microsoft 365 users", some 620, some 0, some 85, none, none, none⟩

/-- Second payload of the spec's end-to-end dedupe scenario (same six-tuple,
`volume = 10`). -/
def scenarioPayload2 : Payload :=
  ⟨some "seed", some "domain", some "micr0soft-login-support.com", some "Microsoft",
   some "Russia", some "RU", some "Typosquatting", some "Credential Harvesting",
   some "Microsoft 365 users", some 10, some 0, some 80, none, none, none⟩

/-- Witness for C1: the spec's scenario (volumes 620 then 10) leaves one
record with volume 630. -/
theorem upsert_twice_dedupes_witness :
    ((upsert_threat_event (upsert_threat_event [] scenarioPayload1 0) scenarioPayload2 1).filter
        (fun e => e.dedupe_hash = build_dedupe_hash scenarioPayload1)).length = 1 ∧
    ∀ e ∈ (upsert_threat_event (upsert_threat_event [] scenarioPayload1 0) scenarioPayload2 1).filter
        (fun e => e.dedupe_hash = build_dedupe_hash scenarioPayload1),
      e.volume = 630 ∧ e.ato_hits = 0 ∧ e.confidence = 85 := by
  have h := upsert_twice_dedupes [] scenarioPayload1 scenarioPayload2 0 1 620 10 0 0 85 80
    rfl rfl rfl rfl rfl rfl rfl rfl rfl rfl rfl rfl rfl rfl
    (fun e he => absurd he (List.not_mem_nil e))
  refine ⟨h.1, fun e he => ?_⟩
  obtain ⟨hv, ha, hc⟩ := h.2 e he
  norm_num at hv hc
  exact ⟨hv, ha, hc⟩

/-- **C8.** When `upsert_threat_event` merges into the stored record with
the payload's dedupe hash, exactly that record is replaced by its merge and
the merge only changes `volume`, `atoHits`, `confidence`, `lastSeen`,
`occurredAt` and `metadata`: the eleven creation-time fields keep their
stored values. -/
theorem upsert_merge_frame (db1 db2 : List ThreatEvent) (e : ThreatEvent)
    (p : Payload) (now : Int)
    (hfresh : ∀ x ∈ db1, x.dedupe_hash ≠ payloadHash p)
    (he : e.dedupe_hash = payloadHash p) :
    upsert_threat_event (db1 ++ e :: db2) p now =
      db1 ++ mergeThreatEvent e p now :: db2 ∧
    (mergeThreatEvent e p now).first_seen = e.first_seen ∧
    (mergeThreatEvent e p now).source = e.source ∧
    (mergeThreatEvent e p now).indicator_type = e.indicator_type ∧
    (mergeThreatEvent e p now).indicator_value = e.indicator_value ∧
    (mergeThreatEvent e p now).category = e.category ∧
    (mergeThreatEvent e p now).country = e.country ∧
    (mergeThreatEvent e p now).country_code = e.country_code ∧
    (mergeThreatEvent e p now).brand_target = e.brand_target ∧
    (mergeThreatEvent e p now).attack_type = e.attack_type ∧
    (mergeThreatEvent e p now).primary_target = e.primary_target ∧
    (mergeThreatEvent e p now).dedupe_hash = e.dedupe_hash :=
  ⟨upsertGo_hit p now (payloadHash p) db1 db2 e hfresh he,
   rfl, rfl, rfl, rfl, rfl, rfl, rfl, rfl, rfl, rfl, rfl⟩

/-- A concrete stored event used by the C8 witness. -/
def frameEvent : ThreatEvent :=
  ⟨"seed", "domain", "adobe-login.net", "Typosquatting", "Germany", "DE",
   "Adobe", "Credential Harvesting", "Adobe users", 5, 1, 70, "h1", [], 10, 10, 10⟩

/-- A concrete payload (carrying an explicit dedupe hash) used by the C8
witness. -/
def framePayload : Payload :=
  ⟨some "seed", some "domain", some "adobe-login.net", some "Adobe", some "Germany",
   some "DE", some "Typosquatting", none, none, some 3, some 1, some 92,
   some "h1", none, none⟩

/-- Witness for C8 at a concrete store and payload. -/
theorem upsert_merge_frame_witness :
    upsert_threat_event [frameEvent] framePayload 42 =
      [mergeThreatEvent frameEvent framePayload 42] ∧
    (mergeThreatEvent frameEvent framePayload 42).first_seen = frameEvent.first_seen ∧
    (mergeThreatEvent frameEvent framePayload 42).source = frameEvent.source ∧
    (mergeThreatEvent frameEvent framePayload 42).indicator_type = frameEvent.indicator_type ∧
    (mergeThreatEvent frameEvent framePayload 42).indicator_value = frameEvent.indicator_value ∧
    (mergeThreatEvent frameEvent framePayload 42).category = frameEvent.category ∧
    (mergeThreatEvent frameEvent framePayload 42).country = frameEvent.country ∧
    (mergeThreatEvent frameEvent framePayload 42).country_code = frameEvent.country_code ∧
    (mergeThreatEvent frameEvent framePayload 42).brand_target = frameEvent.brand_target ∧
    (mergeThreatEvent frameEvent framePayload 42).attack_type = frameEvent.attack_type ∧
    (mergeThreatEvent frameEvent framePayload 42).primary_target = frameEvent.primary_target ∧
    (mergeThreatEvent frameEvent framePayload 42).dedupe_hash = frameEvent.dedupe_hash := by
  have h := upsert_merge_frame [] [] frameEvent framePayload 42
    (fun x hx => absurd hx (List.not_mem_nil x)) (by decide)
  simpa using h

/-! ## `workers/certstream.py`: Levenshtein distance -/

/-- Inner cell recursion of `_levenshtein_distance`'s row update:
`insert = left+1`, `delete = previous[j]+1`, `replace = previous[j-1]+δ`. -/
def levRow (ca : Char) : List Char → List Nat → Nat → List Nat
  | cb :: bs, p0 :: p1 :: ps, left =>
    let cost := min (min (left + 1) (p1 + 1)) (p0 + (if ca = cb then 0 else 1))
    cost :: levRow ca bs (p1 :: ps) cost
  | _, _, _ => []

/-- The row loop of `_levenshtein_distance`: one dynamic-programming row per
character of `a`, starting from `previous = range(len(b)+1)` and `i = 1`. -/
def levLoop (b : List Char) : List Char → List Nat → Nat → List Nat
  | [], prev, _ => prev
  | ca :: rest, prev, i => levLoop b rest (i :: levRow ca b prev i) (i + 1)

/-- `_levenshtein_distance` (`workers/certstream.py`), including the
argument swap that keeps the inner list the shorter one. -/
def _levenshtein_distance (a b : List Char) : Nat :=
  if a = b then 0
  else if a = [] then b.length
  else if b = [] then a.length
  else
    let (a, b) := if a.length < b.length then (b, a) else (a, b)
    (levLoop b a (List.range (b.length + 1)) 1).getLast?.getD 0

/-- Validation of the Levenshtein embedding: a single substitution. -/
theorem lev_validation_1 : _levenshtein_distance "microsoft".data "micr0soft".data = 1 := by
  decide

/-- Validation of the Levenshtein embedding: the classic pair. -/
theorem lev_validation_2 : _levenshtein_distance "kitten".data "sitting".data = 3 := by
  decide

/-- Validation of the Levenshtein embedding: one insertion (swap branch). -/
theorem lev_validation_3 : _levenshtein_distance "okta".data "oktaa".data = 1 := by
  decide

/-! ## CPython `difflib.SequenceMatcher` (as called with `isjunk=None`)

`_find_brand_match` computes `SequenceMatcher(None, brand, candidate).ratio()`.
The embedding below follows CPython's `difflib.py`: `b2j` with the autojunk
popularity rule, `find_longest_match`'s row-dictionary scan (`j2len` is kept
as a total function defaulting to `0`) and its extension loops (the
junk-conditioned loops are omitted: `isjunk=None` makes `bjunk` empty, so
only the not-junk loops can fire), and `get_matching_blocks`'s divide and
conquer, of which only the total matched size is needed for `ratio`.
Loops whose termination Python gets from mutation are written with explicit
fuel that provably dominates the source loop's iteration count. -/

/-- CPython autojunk: an element of `b` is "popular" when `len(b) >= 200`
and it occurs more than `len(b) // 100 + 1` times. -/
def b2jPopular (b : List Char) (c : Char) : Bool :=
  b.length ≥ 200 && b.count c > b.length / 100 + 1

/-- `b2j[c]`: the ascending positions of `c` in `b`, with popular elements
deleted. -/
def b2j (b : List Char) (c : Char) : List Nat :=
  if b2jPopular b c then []
  else (List.range b.length).filter (fun j => b.getD j ' ' = c)

/-- The inner `for j in b2j.get(a[i], [])` loop of `find_longest_match`:
threads the new row dictionary and the running best block
`(besti, bestj, bestsize)`. -/
def flmJ (i : Nat) (prev : Nat → Nat) :
    List Nat → (Nat → Nat) → Nat × Nat × Nat → (Nat → Nat) × (Nat × Nat × Nat)
  | [], cur, best => (cur, best)
  | j :: js, cur, best =>
    let k := (if j = 0 then 0 else prev (j - 1)) + 1
    let cur' := fun x => if x = j then k else cur x
    let best' := if best.2.2 < k then (i + 1 - k, j + 1 - k, k) else best
    flmJ i prev js cur' best'

/-- The outer `for i in range(alo, ahi)` loop of `find_longest_match`. -/
def flmI (a b : List Char) (blo bhi : Nat) :
    List Nat → (Nat → Nat) → Nat × Nat × Nat → Nat × Nat × Nat
  | [], _, best => best
  | i :: is', prev, best =>
    let js := (b2j b (a.getD i ' ')).filter (fun j => blo ≤ j && j < bhi)
    let (cur, best') := flmJ i prev js (fun _ => 0) best
    flmI a b blo bhi is' cur best'

/-- `find_longest_match`'s left-extension loop (fuel bounds iterations by
the starting `besti`, which strictly decreases). -/
def extendLeft (a b : List Char) (alo blo : Nat) :
    Nat → Nat × Nat × Nat → Nat × Nat × Nat
  | 0, best => best
  | fuel + 1, best =>
    if alo < best.1 && blo < best.2.1 &&
        (a.getD (best.1 - 1) 'A' == b.getD (best.2.1 - 1) 'B')
    then extendLeft a b alo blo fuel (best.1 - 1, best.2.1 - 1, best.2.2 + 1)
    else best

/-- `find_longest_match`'s right-extension loop (fuel bounds iterations by
`ahi`, since `besti + bestsize` strictly increases below `ahi`). -/
def extendRight (a b : List Char) (ahi bhi : Nat) :
    Nat → Nat × Nat × Nat → Nat × Nat × Nat
  | 0, best => best
  | fuel + 1, best =>
    if best.1 + best.2.2 < ahi && best.2.1 + best.2.2 < bhi &&
        (a.getD (best.1 + best.2.2) 'A' == b.getD (best.2.1 + best.2.2) 'B')
    then extendRight a b ahi bhi fuel (best.1, best.2.1, best.2.2 + 1)
    else best

/-- `SequenceMatcher.find_longest_match(alo, ahi, blo, bhi)`:
the best block `(besti, bestj, bestsize)` in the window. -/
def findLongestMatch (a b : List Char) (alo ahi blo bhi : Nat) : Nat × Nat × Nat :=
  let b0 := flmI a b blo bhi (List.range' alo (ahi - alo)) (fun _ => 0) (alo, blo, 0)
  let b1 := extendLeft a b alo blo b0.1 b0
  extendRight a b ahi bhi ahi b1

/-- Total size of the matching blocks found by `get_matching_blocks`'s
divide and conquer on a window (the recursion depth is bounded by the
`a`-window size, which strictly shrinks; fuel `a.length + 1` suffices). -/
def matchSumGo (a b : List Char) : Nat → Nat → Nat → Nat → Nat → Nat
  | 0, _, _, _, _ => 0
  | fuel + 1, alo, ahi, blo, bhi =>
    let m := findLongestMatch a b alo ahi blo bhi
    if m.2.2 = 0 then 0
    else
      m.2.2 + (if alo < m.1 && blo < m.2.1 then matchSumGo a b fuel alo m.1 blo m.2.1 else 0) +
        (if m.1 + m.2.2 < ahi && m.2.1 + m.2.2 < bhi then
          matchSumGo a b fuel (m.1 + m.2.2) ahi (m.2.1 + m.2.2) bhi else 0)

/-- `sum(size for _, _, size in get_matching_blocks())`. -/
def matchingSize (a b : List Char) : Nat :=
  matchSumGo a b (a.length + 1) 0 a.length 0 b.length

/-- `SequenceMatcher(None, a, b).ratio()` as an exact rational:
`2*M / (len(a)+len(b))`, and `1.0` when both strings are empty. -/
def sequenceMatcherRatio (a b : List Char) : ℚ :=
  if a.length + b.length = 0 then 1
  else 2 * (matchingSize a b : ℚ) / ((a.length + b.length : Nat) : ℚ)

/-- Validation against CPython `difflib`:
`SequenceMatcher(None, "abcab", "ababc").ratio() == 0.6`. -/
theorem ratio_validation_1 : sequenceMatcherRatio "abcab".data "ababc".data = 3/5 := by
  have hm : matchingSize "abcab".data "ababc".data = 3 := by decide
  have hl : "abcab".data.length + "ababc".data.length = 10 := by decide
  rw [sequenceMatcherRatio, hl, hm]
  norm_num

/-- Validation against CPython `difflib`: equal strings give ratio 1. -/
theorem ratio_validation_2 : sequenceMatcherRatio "okta".data "okta".data = 1 := by
  have hm : matchingSize "okta".data "okta".data = 4 := by decide
  have hl : "okta".data.length + "okta".data.length = 8 := by decide
  rw [sequenceMatcherRatio, hl, hm]
  norm_num

/-- Validation against CPython `difflib`: a single-substitution typo,
`SequenceMatcher(None, "microsoft", "micr0soft").ratio() == 8/9`. -/
theorem ratio_validation_3 :
    sequenceMatcherRatio "microsoft".data "micr0soft".data = 8/9 := by
  have hm : matchingSize "microsoft".data "micr0soft".data = 8 := by decide
  have hl : "microsoft".data.length + "micr0soft".data.length = 18 := by decide
  rw [sequenceMatcherRatio, hl, hm]
  norm_num

/-! ## `workers/certstream.py`: `_find_brand_match` -/

/-- `domain.lower().lstrip("*.").split(":")[0].split(".")[0]`. -/
def firstLabelOf (domain : String) : List Char :=
  let host := (lstripStarDot (pyLower domain.data)).takeWhile (fun c => c ≠ ':')
  host.takeWhile (fun c => c ≠ '.')

/-- The candidate tokens scanned against each brand: the normalized first
label, then the cleaned maximal alphanumeric sub-tokens of the first label. -/
def candidatesOf (domain : String) : List (List Char) :=
  cleanChars (firstLabelOf domain) :: (alnumRuns (firstLabelOf domain)).map cleanChars

/-- The similarity attributed to one `(brand, candidate)` pair on the ratio
path of `_find_brand_match`: the `SequenceMatcher` ratio, floored at `0.9`
when the pair is a near-miss typosquat (`edit distance ≤ 1` and a brand of
length ≥ 4). -/
def pairRatio (nb cand : List Char) : ℚ :=
  if _levenshtein_distance nb cand ≤ 1 ∧ 4 ≤ nb.length then
    max (sequenceMatcherRatio nb cand) (9/10)
  else sequenceMatcherRatio nb cand

/-- The best-score update of `_find_brand_match`'s ratio path: adopt the
pair when its ratio clears the threshold and beats the running best. -/
def stepBest (thr : ℚ) (btitle : String) (nb cand : List Char)
    (best : Option String × ℚ) : Option String × ℚ :=
  if thr ≤ pairRatio nb cand ∧ best.2 < pairRatio nb cand
  then (some btitle, pairRatio nb cand) else best

/-- The `for candidate in candidates` loop body of `_find_brand_match` for
one brand: `Sum.inl title` models the early `return brand.title(), 0.99`,
`Sum.inr best` models falling through with an updated best score. -/
def scanCandidates (emit : Bool) (thr : ℚ) (nb : List Char) (btitle : String) :
    List (List Char) → Option String × ℚ → Sum String (Option String × ℚ)
  | [], best => Sum.inr best
  | cand :: rest, best =>
    if cand = [] then scanCandidates emit thr nb btitle rest best
    else if containsSub nb cand = true then
      (if cand = nb ∧ emit = false then scanCandidates emit thr nb btitle rest best
       else Sum.inl btitle)
    else scanCandidates emit thr nb btitle rest (stepBest thr btitle nb cand best)

/-- The `for brand in settings.brand_list` loop of `_find_brand_match`. -/
def scanBrands (emit : Bool) (thr : ℚ) (cands : List (List Char)) :
    List String → Option String × ℚ → Option String × ℚ
  | [], best => best
  | brand :: rest, best =>
    let nb := cleanChars brand.data
    if nb = [] then scanBrands emit thr cands rest best
    else
      match scanCandidates emit thr nb (pyTitle brand) cands best with
      | Sum.inl t => (some t, 99/100)
      | Sum.inr best' => scanBrands emit thr cands rest best'

/-- `_find_brand_match` (`workers/certstream.py`), parametrized by the
configuration it reads from `settings`: the brand list, the similarity
threshold `certstream_lookalike_similarity` and the flag
`certstream_emit_on_exact_brand`. -/
def _find_brand_match (brands : List String) (thr : ℚ) (emit : Bool)
    (domain : String) : Option String × ℚ :=
  if cleanChars (firstLabelOf domain) = [] then (none, 0)
  else scanBrands emit thr (candidatesOf domain) brands (none, 0)

/-- The default monitored-brand list from `app/config.py`
(`monitored_brands` split on commas). -/
def defaultBrandList : List String :=
  ["microsoft", "google", "okta", "adobe", "amazon", "paypal", "bankofamerica", "docu-sign"]

/-- Longest-common-subsequence length (fuel-indexed; each recursive call
shrinks `a.length + b.length`, so that fuel always suffices). -/
def lcsLengthGo : Nat → List Char → List Char → Nat
  | 0, _, _ => 0
  | _ + 1, [], _ => 0
  | _ + 1, _ :: _, [] => 0
  | fuel + 1, a :: as', b :: bs' =>
    if a = b then lcsLengthGo fuel as' bs' + 1
    else max (lcsLengthGo fuel (a :: as') bs') (lcsLengthGo fuel as' (b :: bs'))

/-- Longest-common-subsequence length: the literal reading of the spec's
"longest-common-subsequence-style number of matching characters". -/
def lcsLength (a b : List Char) : Nat := lcsLengthGo (a.length + b.length) a b

/-! ### Lemmas about the `_find_brand_match` scan -/

/-- Lower-alnum characters are fixed by `Char.toLower`. -/
theorem toLower_fix {c : Char} (h : isLowerAlnum c = true) : c.toLower = c := by
  simp only [isLowerAlnum, Bool.or_eq_true, Bool.and_eq_true, decide_eq_true_eq] at h
  unfold Char.toLower
  rw [if_neg]
  intro hcon
  rcases h with ⟨h1, _⟩ | ⟨_, h2⟩
  · rw [Char.le_def] at h1
    have : (97 : Nat) ≤ c.toNat := h1
    omega
  · rw [Char.le_def] at h2
    have : c.toNat ≤ 57 := h2
    omega

/-- Levenshtein distance of a nonempty string to the empty string. -/
theorem lev_nil {nb : List Char} (hne : nb ≠ []) :
    _levenshtein_distance nb [] = nb.length := by
  unfold _levenshtein_distance
  rw [if_neg hne, if_neg hne, if_pos rfl]

/-- A nonempty candidate token forces a nonempty normalized first label. -/
theorem candidates_ne_nil {domain : String} {cand : List Char}
    (hc : cand ∈ candidatesOf domain) (hne : cand ≠ []) :
    cleanChars (firstLabelOf domain) ≠ [] := by
  unfold candidatesOf at hc
  rcases List.mem_cons.mp hc with rfl | hmem
  · exact hne
  · obtain ⟨t, ht, rfl⟩ := List.mem_map.mp hmem
    obtain ⟨htne, hall⟩ := alnumRuns_mem ht
    obtain ⟨c0, hc0⟩ := List.exists_mem_of_ne_nil t htne
    obtain ⟨ha, hin⟩ := hall c0 hc0
    intro hnil
    have hmem0 : c0 ∈ cleanChars (firstLabelOf domain) := by
      unfold cleanChars pyLower
      exact List.mem_filter.mpr ⟨List.mem_map.mpr ⟨c0, hin, toLower_fix ha⟩, ha⟩
    rw [hnil] at hmem0
    exact absurd hmem0 (List.not_mem_nil _)

/-- The typo floor: a near-miss pair's attributed similarity is at least 0.9. -/
theorem pairRatio_floor (nb cand : List Char)
    (h1 : _levenshtein_distance nb cand ≤ 1) (h2 : 4 ≤ nb.length) :
    9/10 ≤ pairRatio nb cand := by
  unfold pairRatio
  rw [if_pos ⟨h1, h2⟩]
  exact le_max_right _ _

/-- One best-score update never lowers the best score. -/
theorem stepBest_mono (thr : ℚ) (btitle : String) (nb cand : List Char)
    (best : Option String × ℚ) : best.2 ≤ (stepBest thr btitle nb cand best).2 := by
  unfold stepBest
  split
  · next hcond => exact le_of_lt hcond.2
  · exact le_refl _

/-- After the update for a near-miss pair (threshold at most 0.9), the best
score is at least 0.9. -/
theorem stepBest_floor (thr : ℚ) (btitle : String) (nb cand : List Char)
    (best : Option String × ℚ) (h1 : _levenshtein_distance nb cand ≤ 1)
    (h2 : 4 ≤ nb.length) (hthr : thr ≤ 9/10) :
    9/10 ≤ (stepBest thr btitle nb cand best).2 := by
  have hp := pairRatio_floor nb cand h1 h2
  unfold stepBest
  split
  · exact hp
  · next hcond =>
    push_neg at hcond
    exact le_trans hp (hcond (le_trans hthr hp))

/-- The candidate scan never lowers the running best score. -/
theorem scanCandidates_mono (emit : Bool) (thr : ℚ) (nb : List Char) (btitle : String) :
    ∀ (cands : List (List Char)) (best best' : Option String × ℚ),
      scanCandidates emit thr nb btitle cands best = Sum.inr best' → best.2 ≤ best'.2 := by
  intro cands
  induction cands with
  | nil =>
    intro best best' h
    simp only [scanCandidates, Sum.inr.injEq] at h
    exact le_of_eq (congrArg Prod.snd h)
  | cons c rest ih =>
    intro best best' h
    simp only [scanCandidates] at h
    split at h
    · exact ih best best' h
    · split at h
      · split at h
        · exact ih best best' h
        · cases h
      · exact le_trans (stepBest_mono thr btitle nb c best) (ih _ best' h)

/-- If some scanned candidate is a near-miss typosquat of the brand (and not
a substring hit), a fallthrough of the scan carries a best score ≥ 0.9,
provided the threshold is at most 0.9. -/
theorem scanCandidates_floor (emit : Bool) (thr : ℚ) (nb : List Char) (btitle : String)
    (hthr : thr ≤ 9/10) :
    ∀ (cands : List (List Char)) (best best' : Option String × ℚ) (cand : List Char),
      cand ∈ cands → _levenshtein_distance nb cand ≤ 1 → 4 ≤ nb.length →
      containsSub nb cand = false →
      scanCandidates emit thr nb btitle cands best = Sum.inr best' → 9/10 ≤ best'.2 := by
  intro cands
  induction cands with
  | nil => intro best best' cand hmem; exact absurd hmem (List.not_mem_nil _)
  | cons c rest ih =>
    intro best best' cand hmem hlev hlen hsub h
    simp only [scanCandidates] at h
    rcases List.mem_cons.mp hmem with rfl | hmem'
    · have hcne : cand ≠ [] := by
        intro hnil
        rw [hnil] at hlev
        have hne : nb ≠ [] := by
          intro h0
          rw [h0] at hlen
          simp at hlen
        rw [lev_nil hne] at hlev
        omega
      rw [if_neg hcne, if_neg (by simp [hsub])] at h
      exact le_trans (stepBest_floor thr btitle nb cand best hlev hlen hthr)
        (scanCandidates_mono emit thr nb btitle rest _ best' h)
    · split at h
      · exact ih best best' cand hmem' hlev hlen hsub h
      · split at h
        · split at h
          · exact ih best best' cand hmem' hlev hlen hsub h
          · cases h
        · exact ih _ best' cand hmem' hlev hlen hsub h

/-- The brand scan never returns a score below an already-achieved 0.9. -/
theorem scanBrands_keep (emit : Bool) (thr : ℚ) (cands : List (List Char)) :
    ∀ (brands : List String) (best : Option String × ℚ), 9/10 ≤ best.2 →
      9/10 ≤ (scanBrands emit thr cands brands best).2 := by
  intro brands
  induction brands with
  | nil => intro best h; exact h
  | cons b rest ih =>
    intro best h
    simp only [scanBrands]
    split
    · exact ih best h
    · rcases hsc : scanCandidates emit thr (cleanChars b.data) (pyTitle b) cands best
        with t | best'
      · show (9:ℚ)/10 ≤ ((some t, (99:ℚ)/100)).2
        norm_num
      · exact ih best' (le_trans h (scanCandidates_mono emit thr _ _ cands best best' hsc))

/-- C4 core: a monitored 4+-character brand with a scanned candidate at edit
distance ≤ 1 (no substring hit) forces a final score ≥ 0.9 whenever the
threshold is at most 0.9. -/
theorem scanBrands_floor (emit : Bool) (thr : ℚ) (cands : List (List Char))
    (hthr : thr ≤ 9/10) :
    ∀ (brands : List String) (best : Option String × ℚ) (brand : String) (cand : List Char),
      brand ∈ brands → cand ∈ cands → 4 ≤ (cleanChars brand.data).length →
      _levenshtein_distance (cleanChars brand.data) cand ≤ 1 →
      containsSub (cleanChars brand.data) cand = false →
      9/10 ≤ (scanBrands emit thr cands brands best).2 := by
  intro brands
  induction brands with
  | nil => intro best brand cand hb; exact absurd hb (List.not_mem_nil _)
  | cons b rest ih =>
    intro best brand cand hb hc hlen hlev hsub
    simp only [scanBrands]
    split
    · next hbnil =>
      rcases List.mem_cons.mp hb with rfl | hb'
      · rw [hbnil] at hlen
        simp at hlen
      · exact ih best brand cand hb' hc hlen hlev hsub
    · rcases hsc : scanCandidates emit thr (cleanChars b.data) (pyTitle b) cands best
        with t | best'
      · show (9:ℚ)/10 ≤ ((some t, (99:ℚ)/100)).2
        norm_num
      · rcases List.mem_cons.mp hb with rfl | hb'
        · exact scanBrands_keep emit thr cands rest best'
            (scanCandidates_floor emit thr _ _ hthr cands best best' cand hc hlev hlen hsub hsc)
        · exact ih best' brand cand hb' hc hlen hlev hsub

/-- A candidate list in which every entry equals the brand, with exact
matches disabled, falls through the whole candidate scan unchanged. -/
theorem scanCandidates_all_exact (thr : ℚ) (nb : List Char) (btitle : String) :
    ∀ (cands : List (List Char)) (best : Option String × ℚ),
      (∀ c ∈ cands, c = nb) →
      scanCandidates false thr nb btitle cands best = Sum.inr best := by
  intro cands
  induction cands with
  | nil => intro best _; rfl
  | cons c rest ih =>
    intro best hall
    have hrest : ∀ x ∈ rest, x = nb := fun x hx => hall x (List.mem_cons_of_mem _ hx)
    have hc : c = nb := hall c (List.mem_cons_self _ _)
    subst hc
    simp only [scanCandidates]
    split
    · exact ih best hrest
    · split
      · split
        · exact ih best hrest
        · next hskip => exact absurd (by simp) hskip
      · next hsubF => exact absurd (containsSub_self c) hsubF

/-- If some candidate contains the (nonempty) brand as a substring and is
not the skipped exact token, the candidate scan early-returns the title. -/
theorem scanCandidates_finds (emit : Bool) (thr : ℚ) (nb : List Char) (btitle : String)
    (hnb : nb ≠ []) :
    ∀ (cands : List (List Char)) (best : Option String × ℚ) (c0 : List Char),
      c0 ∈ cands → containsSub nb c0 = true → ¬(c0 = nb ∧ emit = false) →
      scanCandidates emit thr nb btitle cands best = Sum.inl btitle := by
  intro cands
  induction cands with
  | nil => intro best c0 h; exact absurd h (List.not_mem_nil _)
  | cons c rest ih =>
    intro best c0 hmem hsub hskip
    simp only [scanCandidates]
    rcases List.mem_cons.mp hmem with rfl | hmem'
    · have hcne : c0 ≠ [] := by
        intro hnil
        rw [hnil] at hsub
        exact hnb (containsSub_nil hsub)
      rw [if_neg hcne, if_pos hsub, if_neg hskip]
    · split
      · exact ih best c0 hmem' hsub hskip
      · split
        · split
          · exact ih best c0 hmem' hsub hskip
          · rfl
        · exact ih _ c0 hmem' hsub hskip

/-- Inversion: an early return of the candidate scan yields the scanned
brand's title and is caused by some qualifying candidate. -/
theorem scanCandidates_inl (emit : Bool) (thr : ℚ) (nb : List Char) (btitle : String) :
    ∀ (cands : List (List Char)) (best : Option String × ℚ) (t : String),
      scanCandidates emit thr nb btitle cands best = Sum.inl t →
      t = btitle ∧ ∃ c ∈ cands, c ≠ [] ∧ containsSub nb c = true ∧
        ¬(c = nb ∧ emit = false) := by
  intro cands
  induction cands with
  | nil =>
    intro best t h
    simp [scanCandidates] at h
  | cons c rest ih =>
    intro best t h
    simp only [scanCandidates] at h
    split at h
    · obtain ⟨ht, c0, hc0, hrest⟩ := ih best t h
      exact ⟨ht, c0, List.mem_cons_of_mem _ hc0, hrest⟩
    · next hcne =>
      split at h
      · next hsubT =>
        split at h
        · obtain ⟨ht, c0, hc0, hrest⟩ := ih best t h
          exact ⟨ht, c0, List.mem_cons_of_mem _ hc0, hrest⟩
        · next hskip =>
          cases h
          exact ⟨rfl, c, List.mem_cons_self _ _, hcne, hsubT, hskip⟩
      · obtain ⟨ht, c0, hc0, hrest⟩ := ih _ t h
        exact ⟨ht, c0, List.mem_cons_of_mem _ hc0, hrest⟩

/-- Does this brand trigger the substring early-return against the given
candidates?  True when its normalization is nonempty (the brand is not
skipped by `if not normalized_brand: continue`) and some candidate contains
it as a substring without being the exactly-equal token skipped by
configuration. -/
def brandQualifies (emit : Bool) (cands : List (List Char)) (brand : String) : Bool :=
  decide (cleanChars brand.data ≠ [] ∧ ∃ c ∈ cands,
    containsSub (cleanChars brand.data) c = true ∧
    ¬(c = cleanChars brand.data ∧ emit = false))

/-- Unfolding of `brandQualifies`. -/
theorem brandQualifies_iff (emit : Bool) (cands : List (List Char)) (brand : String) :
    brandQualifies emit cands brand = true ↔
      (cleanChars brand.data ≠ [] ∧ ∃ c ∈ cands,
        containsSub (cleanChars brand.data) c = true ∧
        ¬(c = cleanChars brand.data ∧ emit = false)) := by
  simp [brandQualifies]

/-- C3 core: the brand scan early-returns exactly the FIRST qualifying
brand in scan order — `List.find?` over the brand list — with score 0.99. -/
theorem scanBrands_first (emit : Bool) (thr : ℚ) (cands : List (List Char)) :
    ∀ (brands : List String) (best : Option String × ℚ) (b : String),
      List.find? (brandQualifies emit cands) brands = some b →
      scanBrands emit thr cands brands best = (some (pyTitle b), 99/100) := by
  intro brands
  induction brands with
  | nil =>
    intro best b h
    simp [List.find?] at h
  | cons b0 rest ih =>
    intro best b h
    rw [List.find?_cons] at h
    by_cases hq : brandQualifies emit cands b0 = true
    · rw [hq] at h
      have hb : b0 = b := Option.some.inj h
      subst hb
      obtain ⟨hnb, c, hc, hcsub, hcskip⟩ := (brandQualifies_iff emit cands b0).mp hq
      simp only [scanBrands]
      rw [if_neg hnb,
        scanCandidates_finds emit thr (cleanChars b0.data) (pyTitle b0) hnb cands best
          c hc hcsub hcskip]
    · have hq' : brandQualifies emit cands b0 = false := by simpa using hq
      rw [hq'] at h
      have hrest : List.find? (brandQualifies emit cands) rest = some b := h
      simp only [scanBrands]
      split
      · exact ih best b hrest
      · next hnb0 =>
        rcases hsc : scanCandidates emit thr (cleanChars b0.data) (pyTitle b0) cands best
          with t | best'
        · obtain ⟨-, c, hc, -, hcsub, hcskip⟩ :=
            scanCandidates_inl emit thr _ _ cands best t hsc
          have : brandQualifies emit cands b0 = true :=
            (brandQualifies_iff emit cands b0).mpr ⟨hnb0, c, hc, hcsub, hcskip⟩
          rw [hq'] at this
          cases this
        · exact ih best' b hrest

/-- **C4.** Typo floor: for every monitored brand whose normalized form has
length ≥ 4 and every candidate token at edit distance ≤ 1 from it (the
brand not a substring of the candidate), the similarity used for the pair
is floored at 0.90, so `_find_brand_match` reports a score ≥ 0.90 — for any
configured threshold at most 0.9 (the default is 0.78). -/
theorem matcher_typo_floor (brands : List String) (thr : ℚ) (emit : Bool)
    (domain : String) (brand : String) (cand : List Char)
    (hbrand : brand ∈ brands) (hlen : 4 ≤ (cleanChars brand.data).length)
    (hcand : cand ∈ candidatesOf domain)
    (hlev : _levenshtein_distance (cleanChars brand.data) cand ≤ 1)
    (hsub : containsSub (cleanChars brand.data) cand = false)
    (hthr : thr ≤ 9/10) :
    9/10 ≤ (_find_brand_match brands thr emit domain).2 := by
  have hcne : cand ≠ [] := by
    intro hnil
    rw [hnil] at hlev
    have hne : cleanChars brand.data ≠ [] := by
      intro h0
      rw [h0] at hlen
      simp at hlen
    rw [lev_nil hne] at hlev
    omega
  have hlabel := candidates_ne_nil hcand hcne
  unfold _find_brand_match
  rw [if_neg hlabel]
  exact scanBrands_floor emit thr _ hthr brands (none, 0) brand cand hbrand hcand hlen hlev hsub

/-- Witness for C4: the spec's end-to-end scenario 3,
`matchBrand("micr0soft-support.com", ["microsoft"], 0.78, false)` reports a
score of at least 0.90. -/
theorem matcher_typo_floor_witness :
    9/10 ≤ (_find_brand_match ["microsoft"] (78/100) false "micr0soft-support.com").2 :=
  matcher_typo_floor ["microsoft"] (78/100) false "micr0soft-support.com"
    "microsoft" "micr0soft".data (by simp) (by decide) (by decide) (by decide) (by decide)
    (by norm_num)

/-- **C3 (amended).** Substring rule: when some monitored brand (with
nonempty normalization) is a substring of a candidate token and the
candidate is not the exactly-equal token skipped by configuration,
`_find_brand_match` returns score exactly 0.99 — regardless of the
threshold — together with the title-cased FIRST qualifying brand in scan
order (`List.find?` over the brand list), which itself satisfies the
substring condition. -/
theorem matcher_substring_match (brands : List String) (thr : ℚ) (emit : Bool)
    (domain : String) (brand : String) (cand : List Char)
    (hbrand : brand ∈ brands) (hnb : cleanChars brand.data ≠ [])
    (hcand : cand ∈ candidatesOf domain)
    (hsub : containsSub (cleanChars brand.data) cand = true)
    (hskip : ¬(cand = cleanChars brand.data ∧ emit = false)) :
    (_find_brand_match brands thr emit domain).2 = 99/100 ∧
    ∃ b, List.find? (brandQualifies emit (candidatesOf domain)) brands = some b ∧
      b ∈ brands ∧ brandQualifies emit (candidatesOf domain) b = true ∧
      (_find_brand_match brands thr emit domain).1 = some (pyTitle b) := by
  have hcne : cand ≠ [] := by
    intro hnil
    rw [hnil] at hsub
    exact hnb (containsSub_nil hsub)
  have hlabel := candidates_ne_nil hcand hcne
  have hq : brandQualifies emit (candidatesOf domain) brand = true :=
    (brandQualifies_iff emit (candidatesOf domain) brand).mpr ⟨hnb, cand, hcand, hsub, hskip⟩
  have hsome : (List.find? (brandQualifies emit (candidatesOf domain)) brands).isSome :=
    List.find?_isSome.mpr ⟨brand, hbrand, hq⟩
  obtain ⟨b, hfind⟩ := Option.isSome_iff_exists.mp hsome
  have heq := scanBrands_first emit thr (candidatesOf domain) brands (none, 0) b hfind
  unfold _find_brand_match
  rw [if_neg hlabel, heq]
  exact ⟨rfl, b, hfind, List.mem_of_find?_eq_some hfind, List.find?_some hfind, rfl⟩

/-- Witness for C3: the spec's end-to-end scenario 2,
`matchBrand("okta-sso-security-check.net", ["okta"], 0.78, false)` returns
`("Okta", 0.99)`, `"okta"` being the first (only) qualifying brand. -/
theorem matcher_substring_match_witness :
    (_find_brand_match ["okta"] (78/100) false "okta-sso-security-check.net").2 = 99/100 ∧
    (_find_brand_match ["okta"] (78/100) false "okta-sso-security-check.net").1 =
      some "Okta" := by
  have h := matcher_substring_match ["okta"] (78/100) false "okta-sso-security-check.net"
    "okta" "oktassosecuritycheck".data (by simp) (by decide) (by decide) (by decide)
    (by decide)
  obtain ⟨h2, b, hfind, -, -, h1⟩ := h
  have hconc : List.find?
      (brandQualifies false (candidatesOf "okta-sso-security-check.net")) ["okta"] =
      some "okta" := by decide
  rw [hconc] at hfind
  have hb : "okta" = b := Option.some.inj hfind
  refine ⟨h2, ?_⟩
  rw [h1, ← hb]
  rfl

/-- Counterexample to C3 as stated: for the domain `"google-okta.com"` and
brand list `["google", "okta"]`, the brand `"okta"` satisfies the claim's
hypotheses (it is a substring of candidate `"googleokta"`, which differs
from the brand itself), yet `_find_brand_match` returns `"Google"` — the
first qualifying brand in scan order — not `"Okta"`. -/
theorem matcher_substring_counterexample :
    ("googleokta".data ∈ candidatesOf "google-okta.com" ∧
      containsSub (cleanChars "okta".data) "googleokta".data = true ∧
      "googleokta".data ≠ cleanChars "okta".data) ∧
    (_find_brand_match ["google", "okta"] (78/100) false "google-okta.com").1 =
      some "Google" ∧
    (_find_brand_match ["google", "okta"] (78/100) false "google-okta.com").1 ≠
      some "Okta" := by
  have h1 : (_find_brand_match ["google", "okta"] (78/100) false "google-okta.com").1 =
      some "Google" := rfl
  refine ⟨⟨by decide, by decide, by decide⟩, h1, ?_⟩
  rw [h1]
  decide

/-- **C10.** With exact-brand emission disabled
(`certstream_emit_on_exact_brand = false`, the default), a candidate token
exactly equal to the normalized brand is skipped entirely — including the
ratio/edit-distance path — so a domain whose every candidate token equals
the monitored brand yields `(none, 0)`. -/
theorem matcher_exact_brand_skip (b : String) (thr : ℚ) (domain : String)
    (hnb : cleanChars b.data ≠ [])
    (hall : ∀ c ∈ candidatesOf domain, c = cleanChars b.data) :
    _find_brand_match [b] thr false domain = (none, 0) := by
  have hhead : cleanChars (firstLabelOf domain) ∈ candidatesOf domain := by
    unfold candidatesOf
    exact List.mem_cons_self _ _
  have hlabel : cleanChars (firstLabelOf domain) = cleanChars b.data := hall _ hhead
  unfold _find_brand_match
  rw [if_neg (by rw [hlabel]; exact hnb)]
  simp only [scanBrands]
  rw [if_neg hnb,
    scanCandidates_all_exact thr (cleanChars b.data) (pyTitle b) (candidatesOf domain)
      (none, 0) hall]

/-- Witness for C10: the brand's own apex domain `"okta.com"` (every
candidate token is `"okta"`) yields `(none, 0)` even though the skipped
pair's similarity ratio is exactly 1. -/
theorem matcher_exact_brand_skip_witness :
    _find_brand_match ["okta"] (78/100) false "okta.com" = (none, 0) ∧
    sequenceMatcherRatio (cleanChars "okta".data) (cleanChars "okta".data) = 1 := by
  refine ⟨matcher_exact_brand_skip "okta" (78/100) "okta.com" (by decide) (by decide), ?_⟩
  have h : cleanChars "okta".data = "okta".data := by decide
  rw [h]
  exact ratio_validation_2

/-- **C9 (amended).** On the ratio path the similarity equals
`2 * M / (len(brand) + len(candidate))`, where `M` is the total matching
size found by difflib's greedy longest-matching-block (Ratcliff–Obershelp)
recursion; `M` can be strictly smaller than the longest common subsequence
(see the counterexample). -/
theorem ratio_is_matching_blocks (a b : List Char) (h : a.length + b.length ≠ 0) :
    sequenceMatcherRatio a b =
      2 * (matchingSize a b : ℚ) / ((a.length + b.length : Nat) : ℚ) := by
  unfold sequenceMatcherRatio
  rw [if_neg h]

/-- Witness for C9 (amended) at the pair `("abcab", "ababc")`. -/
theorem ratio_is_matching_blocks_witness :
    sequenceMatcherRatio "abcab".data "ababc".data =
      2 * (matchingSize "abcab".data "ababc".data : ℚ) /
        (("abcab".data.length + "ababc".data.length : Nat) : ℚ) :=
  ratio_is_matching_blocks _ _ (by decide)

/-- Counterexample to C9 as stated (with "matching characters" read as the
longest common subsequence): brand `"abcab"` and candidate `"ababc"` reach
the ratio path (no substring relation), difflib's ratio is `0.6`, but the
LCS-based formula gives `0.8`. -/
theorem ratio_not_lcs_counterexample :
    containsSub "abcab".data "ababc".data = false ∧
    sequenceMatcherRatio "abcab".data "ababc".data = 3/5 ∧
    2 * (lcsLength "abcab".data "ababc".data : ℚ) /
      (("abcab".data.length + "ababc".data.length : Nat) : ℚ) = 4/5 ∧
    sequenceMatcherRatio "abcab".data "ababc".data ≠
      2 * (lcsLength "abcab".data "ababc".data : ℚ) /
        (("abcab".data.length + "ababc".data.length : Nat) : ℚ) := by
  have hl : lcsLength "abcab".data "ababc".data = 4 := by decide
  have hlen : "abcab".data.length + "ababc".data.length = 10 := by decide
  refine ⟨by decide, ratio_validation_1, ?_, ?_⟩
  · rw [hl, hlen]
    norm_num
  · rw [ratio_validation_1, hl, hlen]
    norm_num

/-! ## `app/campaigns.py`: the campaign correlator -/

/-- An `AtoEvent` row (`app/models.py`). -/
structure AtoEvent where
  user_email : String
  loc1 : String
  loc2 : String
  risk_score : Int
  action_taken : String
  created_at : Int
deriving DecidableEq

/-- A `DmarcReport` row (`app/models.py`). -/
structure DmarcReport where
  domain : String
  reporting_org : String
  source_ip : String
  disposition : String
  spf_result : String
  dkim_result : String
  msg_count : Int
  report_date : Int
  created_at : Int
deriving DecidableEq

/-- A store snapshot: the three tables read by `correlate_campaigns`. -/
structure Db where
  threats : List ThreatEvent
  ato_events : List AtoEvent
  dmarc_reports : List DmarcReport
deriving DecidableEq

/-- Python `s.split("@")[-1]`: the text after the last `'@'`. -/
def afterLastAt (l : List Char) : List Char :=
  (l.reverse.takeWhile (fun c => c ≠ '@')).reverse

/-- The text after the first `"://"`, when one occurs. -/
def afterSchemeSep : List Char → Option (List Char)
  | ':' :: '/' :: '/' :: rest => some rest
  | _ :: rest => afterSchemeSep rest
  | [] => none

/-- `_brand_key_from_domain` (`app/campaigns.py`).  `urlparse(raw).netloc`
for a string containing `"://"` is modelled as the text between the first
`"://"` and the next `/`, `?` or `#` (the fragment of `urlparse` this
pipeline exercises). -/
def _brand_key_from_domain (domain : String) : String :=
  if domain = "" then "unknown"
  else
    let raw := afterLastAt (pyLower domain.data)
    let host0 := match afterSchemeSep raw with
      | some rest => rest.takeWhile (fun c => c ≠ '/' && c ≠ '?' && c ≠ '#')
      | none => raw
    let host1 := host0.takeWhile (fun c => c ≠ ':')
    let host2 := pyStrip (lstripStarDot host1)
    let host3 := if host2.contains '.' then host2.takeWhile (fun c => c ≠ '.') else host2
    let cleaned := cleanChars host3
    if cleaned = [] then "unknown" else ⟨cleaned⟩

/-- `_infer_brand_label` (`app/campaigns.py`): first monitored brand whose
normalization equals the key, display-cased; otherwise the fallback. -/
def _infer_brand_label (brands : List String) (brand_key fallback : String) : String :=
  match brands.find? (fun brand => cleanText brand = brand_key) with
  | some brand => pyTitle (replaceDashSpace brand)
  | none => fallback

/-- Python `s[:8].upper()` (ASCII fragment, structural on the character
list). -/
def upperTake8 (s : String) : String := ⟨(s.data.take 8).map Char.toUpper⟩

/-- `_campaign_id` (`app/campaigns.py`): `"LRX-CMP-"` plus the upper-cased
first eight hex digits of `sha1(brand_key + ":" + indicator_hint)`. -/
def _campaign_id (brand_key indicator_hint : String) : String :=
  "LRX-CMP-" ++ upperTake8 (sha1Hex (brand_key ++ ":" ++ indicator_hint))

/-- Stable insertion into a `le`-sorted list: the new element goes before
the first entry it compares `le` to (so earlier-listed elements stay first
on ties). -/
def insortAux {α : Type} (le : α → α → Bool) (x : α) : List α → List α
  | [] => [x]
  | y :: ys => if le x y then x :: y :: ys else y :: insortAux le x ys

/-- Stable sort by the Bool comparator `le`.  Python's `list.sort` /
`sorted` are stable, and all stable sorts of a total preorder agree, so
this insertion sort has exactly the source's output. -/
def pySort {α : Type} (le : α → α → Bool) : List α → List α
  | [] => []
  | x :: xs => insortAux le x (pySort le xs)

/-- Membership is preserved by stable insertion. -/
theorem insortAux_mem {α : Type} (le : α → α → Bool) (x a : α) :
    ∀ l : List α, a ∈ insortAux le x l ↔ a = x ∨ a ∈ l := by
  intro l
  induction l with
  | nil => simp [insortAux]
  | cons y ys ih =>
    unfold insortAux
    split
    · simp
    · simp only [List.mem_cons, ih]
      tauto

/-- Membership is preserved by the stable sort. -/
theorem pySort_mem {α : Type} (le : α → α → Bool) (a : α) :
    ∀ l : List α, a ∈ pySort le l ↔ a ∈ l := by
  intro l
  induction l with
  | nil => simp [pySort]
  | cons y ys ih =>
    simp only [pySort, insortAux_mem, List.mem_cons, ih]

/-- Length is preserved by the stable sort. -/
theorem pySort_length {α : Type} (le : α → α → Bool) :
    ∀ l : List α, (pySort le l).length = l.length := by
  have haux : ∀ (x : α) (l : List α), (insortAux le x l).length = l.length + 1 := by
    intro x l
    induction l with
    | nil => rfl
    | cons y ys ih =>
      unfold insortAux
      split
      · simp
      · simp [ih]
  intro l
  induction l with
  | nil => rfl
  | cons y ys ih => simp [pySort, haux, ih]

/-- Stable insertion into a sorted list keeps it sorted, for a transitive
and total comparator. -/
theorem insortAux_sorted {α : Type} (le : α → α → Bool)
    (htrans : ∀ a b c, le a b = true → le b c = true → le a c = true)
    (htotal : ∀ a b, (le a b || le b a) = true) (x : α) :
    ∀ l : List α, l.Pairwise (fun a b => le a b = true) →
      (insortAux le x l).Pairwise (fun a b => le a b = true) := by
  intro l
  induction l with
  | nil => intro _; simp [insortAux]
  | cons y ys ih =>
    intro hl
    rw [List.pairwise_cons] at hl
    obtain ⟨hy, hys⟩ := hl
    unfold insortAux
    split
    · next hxy =>
      rw [List.pairwise_cons]
      refine ⟨?_, List.pairwise_cons.mpr ⟨hy, hys⟩⟩
      intro z hz
      rcases List.mem_cons.mp hz with rfl | hz'
      · exact hxy
      · exact htrans x y z hxy (hy z hz')
    · next hxy =>
      rw [List.pairwise_cons]
      refine ⟨?_, ih hys⟩
      intro z hz
      rcases (insortAux_mem le x z ys).mp hz with heq | hz'
      · rw [heq]
        have h := htotal x y
        rw [Bool.or_eq_true] at h
        rcases h with h | h
        · exact absurd h hxy
        · exact h
      · exact hy z hz'

/-- The stable sort is sorted, for a transitive and total comparator. -/
theorem pySort_sorted {α : Type} (le : α → α → Bool)
    (htrans : ∀ a b c, le a b = true → le b c = true → le a c = true)
    (htotal : ∀ a b, (le a b || le b a) = true) :
    ∀ l : List α, (pySort le l).Pairwise (fun a b => le a b = true) := by
  intro l
  induction l with
  | nil => simp [pySort]
  | cons y ys ih => exact insortAux_sorted le htrans htotal y (pySort le ys) ih

/-- Distinct elements in first-occurrence order (the key order of a Python
`Counter`/`dict` built by repeated insertion). -/
def dedupFirstAux (seen : List String) : List String → List String
  | [] => []
  | x :: xs => if x ∈ seen then dedupFirstAux seen xs else x :: dedupFirstAux (x :: seen) xs

/-- Distinct elements of `l` in first-occurrence order. -/
def dedupFirst (l : List String) : List String := dedupFirstAux [] l

/-- The keys of `Counter(l).most_common(n)`: distinct elements sorted by
descending count — ties kept in first-occurrence order, as CPython's stable
sort does — truncated to `n`. -/
def mostCommon (n : Nat) (l : List String) : List String :=
  (pySort (fun x y => l.count y ≤ l.count x) (dedupFirst l)).take n

/-- One campaign summary `dict`, with the keys built by
`correlate_campaigns` (timestamps stay integers in this model). -/
structure Campaign where
  campaign_id : String
  brand : String
  brand_key : String
  threat_confidence_score : Int
  trigger_event : String
  threat_count : Nat
  total_volume : Int
  ato_event_count : Nat
  dmarc_fail_count : Int
  attack_vectors : List String
  top_countries : List String
  ioc_domains : List String
  ioc_ips : List String
  affected_users : List String
  first_seen : Int
  last_seen : Int
deriving DecidableEq

/-- The DMARC-failure filter of `correlate_campaigns`:
`disposition == "reject" or spf_result != "pass" or dkim_result != "pass"`. -/
def dmarcFailing (r : DmarcReport) : Bool :=
  r.disposition = "reject" || r.spf_result ≠ "pass" || r.dkim_result ≠ "pass"

/-- The raw (pre-clamp) confidence sum of a bucket:
`avg_confidence + min(20, len(items)*2) + 15·[dmarc] + 15·[ato]`, with the
Python float average modelled as an exact rational. -/
def rawScore (items : List ThreatEvent) (atoCount : Nat) (dmarcFail : Int) : ℚ :=
  ((items.map (fun t => t.confidence)).sum : ℚ) / (items.length : ℚ)
    + min 20 ((items.length : ℚ) * 2)
    + (if 0 < dmarcFail then 15 else 0) + (if 0 < atoCount then 15 else 0)

/-- One bucket's campaign summary, as built inside the
`for brand_key, items in grouped_threats.items()` loop of
`correlate_campaigns` (`items` is nonempty at every use).  Python's
`int(...)` truncation coincides with `⌊·⌋` here because the clamped value
is at least 45. -/
def buildCampaign (brands : List String) (brand_key : String)
    (items : List ThreatEvent) (relatedAto : List AtoEvent)
    (relatedDmarc : List DmarcReport) : Campaign :=
  let domainVals := (items.filter
    (fun i => i.indicator_type = "domain" ∨ i.indicator_type = "url")).map
      (fun i => i.indicator_value)
  let ipVals := (items.filter (fun i => i.indicator_type = "ip")).map
    (fun i => i.indicator_value)
  let dmarc_fail_count := ((relatedDmarc.filter dmarcFailing).map
    (fun r => r.msg_count)).sum
  let ato_count := relatedAto.length
  let score : Int :=
    ⌊min (99 : ℚ) (max (45 : ℚ) (rawScore items ato_count dmarc_fail_count))⌋
  let triggers := ["Lookalike domain activity"]
    ++ (if 0 < dmarc_fail_count then ["DMARC authentication failures"] else [])
    ++ (if 0 < ato_count then ["ATO anomaly telemetry"] else [])
  let indicator_hint := match (mostCommon 1 domainVals).head? with
    | some d => d
    | none => match (mostCommon 1 ipVals).head? with
      | some ip => ip
      | none => brand_key
  let fallback := match items.head? with
    | some i => if i.brand_target = "" then "Unknown" else i.brand_target
    | none => "Unknown"
  ⟨_campaign_id brand_key indicator_hint,
   _infer_brand_label brands brand_key fallback, brand_key, score,
   String.intercalate " + " triggers, items.length,
   (items.map (fun t => t.volume)).sum, ato_count, dmarc_fail_count,
   mostCommon 5 (items.map (fun t => t.category)),
   mostCommon 5 (items.map (fun t => t.country)),
   mostCommon 5 domainVals, mostCommon 5 ipVals,
   (relatedAto.take 5).map (fun e => e.user_email),
   ((items.map (fun t => t.occurred_at)).min?).getD 0,
   ((items.map (fun t => t.occurred_at)).max?).getD 0⟩

/-- The grouping key of one threat: its normalized known brand target, else
a brand key derived from its indicator value. -/
def threatBrandKey (t : ThreatEvent) : String :=
  if t.brand_target ≠ "" ∧ t.brand_target ≠ "Unknown" then cleanText t.brand_target
  else _brand_key_from_domain t.indicator_value

/-- The threats of the requested window, most recent first (the
`occurred_at >= since` filter with `ORDER BY occurred_at DESC`; ties keep a
stable order in this model). -/
def windowThreats (db : Db) (now hours : Int) : List ThreatEvent :=
  pySort (fun x y => y.occurred_at ≤ x.occurred_at)
    (db.threats.filter (fun t => now - 3600 * max 1 hours ≤ t.occurred_at))

/-- The ATO events of the requested window, most recent first. -/
def windowAto (db : Db) (now hours : Int) : List AtoEvent :=
  pySort (fun x y => y.created_at ≤ x.created_at)
    (db.ato_events.filter (fun e => now - 3600 * max 1 hours ≤ e.created_at))

/-- The DMARC reports of the requested window, most recent first. -/
def windowDmarc (db : Db) (now hours : Int) : List DmarcReport :=
  pySort (fun x y => y.created_at ≤ x.created_at)
    (db.dmarc_reports.filter (fun r => now - 3600 * max 1 hours ≤ r.created_at))

/-- One grouping bucket: the window's threats with the given brand key
(insertion order of the `defaultdict(list)` grouping). -/
def bucketItems (db : Db) (now hours : Int) (key : String) : List ThreatEvent :=
  (windowThreats db now hours).filter (fun t => threatBrandKey t = key)

/-- The window's ATO events whose user-email brand key matches. -/
def bucketAto (db : Db) (now hours : Int) (key : String) : List AtoEvent :=
  (windowAto db now hours).filter (fun e => _brand_key_from_domain e.user_email = key)

/-- The window's DMARC reports whose domain brand key matches. -/
def bucketDmarc (db : Db) (now hours : Int) (key : String) : List DmarcReport :=
  (windowDmarc db now hours).filter (fun r => _brand_key_from_domain r.domain = key)

/-- The campaign summary of one brand-key bucket. -/
def bucketCampaign (brands : List String) (db : Db) (now hours : Int)
    (key : String) : Campaign :=
  buildCampaign brands key (bucketItems db now hours key)
    (bucketAto db now hours key) (bucketDmarc db now hours key)

/-- `correlate_campaigns` (`app/campaigns.py`), parametrized by the
monitored-brand configuration and the query time `now`
(`datetime.utcnow()`).  Campaigns are sorted by descending score (Python's
stable `list.sort(..., reverse=True)`) and truncated to `max(1, limit)`. -/
def correlate_campaigns (brands : List String) (db : Db) (now hours : Int)
    (limit : Nat) : List Campaign :=
  if windowThreats db now hours = [] then []
  else
    let keys := dedupFirst ((windowThreats db now hours).map threatBrandKey)
    let campaigns := keys.filterMap (fun key =>
      if bucketItems db now hours key = [] then none
      else some (bucketCampaign brands db now hours key))
    (pySort (fun x y => y.threat_confidence_score ≤ x.threat_confidence_score)
      campaigns).take (max 1 limit)

/-! ### Lemmas about the correlator -/

/-- Integer part of a rational clamped to `[45, 99]`: clamping before or
after taking the integer part agrees (`int(min(99, max(45, x)))` in the
source versus the spec's integer `clamp(45, 99, x)`). -/
theorem floor_clamp (x : ℚ) :
    ⌊min (99 : ℚ) (max (45 : ℚ) x)⌋ = min 99 (max 45 ⌊x⌋) := by
  have h45 : ⌊(45 : ℚ)⌋ = 45 := by norm_num
  have h99 : ⌊(99 : ℚ)⌋ = 99 := by norm_num
  rcases le_total x 45 with h | h
  · have hf : ⌊x⌋ ≤ 45 := h45 ▸ Int.floor_mono h
    rw [max_eq_left h, min_eq_right (by norm_num : (45 : ℚ) ≤ 99), h45,
      max_eq_left hf, min_eq_right (by norm_num : (45 : ℤ) ≤ 99)]
  · have hf : 45 ≤ ⌊x⌋ := h45 ▸ Int.floor_mono h
    rw [max_eq_right h, max_eq_right hf]
    rcases le_total x 99 with h2 | h2
    · have hf2 : ⌊x⌋ ≤ 99 := h99 ▸ Int.floor_mono h2
      rw [min_eq_right h2, min_eq_right hf2]
    · have hf2 : 99 ≤ ⌊x⌋ := h99 ▸ Int.floor_mono h2
      rw [min_eq_left h2, h99, min_eq_left hf2]

/-- The spec's score formula: integer
`clamp(45, 99, avg + min(20, 2*threatCount) + 15·[dmarcFailCount>0] +
15·[atoCount>0])`. -/
def specScore (items : List ThreatEvent) (atoCount : Nat) (dmarcFail : Int) : Int :=
  min 99 (max 45 ⌊rawScore items atoCount dmarcFail⌋)

/-- The score computed by `buildCampaign` is exactly the spec's formula. -/
theorem buildCampaign_score (brands : List String) (key : String)
    (items : List ThreatEvent) (ato : List AtoEvent) (dmarc : List DmarcReport) :
    (buildCampaign brands key items ato dmarc).threat_confidence_score =
      specScore items ato.length
        (((dmarc.filter dmarcFailing).map (fun r => r.msg_count)).sum) := by
  simp only [buildCampaign, specScore]
  exact floor_clamp _

/-- The spec formula is clamped to `[45, 99]`. -/
theorem specScore_bounds (items : List ThreatEvent) (atoCount : Nat) (dmarcFail : Int) :
    45 ≤ specScore items atoCount dmarcFail ∧ specScore items atoCount dmarcFail ≤ 99 := by
  unfold specScore
  exact ⟨le_min (by norm_num) (le_max_left _ _), min_le_left _ _⟩

/-- Every campaign emitted by `correlate_campaigns` is the summary of the
(nonempty) bucket of its own brand key. -/
theorem correlate_mem {brands : List String} {db : Db} {now hours : Int}
    {limit : Nat} {c : Campaign}
    (hc : c ∈ correlate_campaigns brands db now hours limit) :
    ∃ key, bucketItems db now hours key ≠ [] ∧
      c = bucketCampaign brands db now hours key := by
  unfold correlate_campaigns at hc
  split at hc
  · exact absurd hc (List.not_mem_nil _)
  · have hmem := (pySort_mem _ _ _).mp (List.take_subset _ _ hc)
    obtain ⟨key, -, hkey⟩ := List.mem_filterMap.mp hmem
    split at hkey
    · cases hkey
    · next hne =>
      cases hkey
      exact ⟨key, hne, rfl⟩

/-- **C2.** Every emitted campaign's `threatConfidenceScore` equals the
spec's integer clamp formula over its own bucket, and in particular lies
within `[45, 99]`. -/
theorem campaign_score_spec (brands : List String) (db : Db) (now hours : Int)
    (limit : Nat) (c : Campaign)
    (hc : c ∈ correlate_campaigns brands db now hours limit) :
    (∃ key, bucketItems db now hours key ≠ [] ∧
      c = bucketCampaign brands db now hours key ∧
      c.threat_confidence_score =
        specScore (bucketItems db now hours key)
          (bucketAto db now hours key).length
          ((((bucketDmarc db now hours key).filter dmarcFailing).map
            (fun r => r.msg_count)).sum)) ∧
    45 ≤ c.threat_confidence_score ∧ c.threat_confidence_score ≤ 99 := by
  obtain ⟨key, hne, rfl⟩ := correlate_mem hc
  have hs := buildCampaign_score brands key (bucketItems db now hours key)
    (bucketAto db now hours key) (bucketDmarc db now hours key)
  have hb := specScore_bounds (bucketItems db now hours key)
    (bucketAto db now hours key).length
    ((((bucketDmarc db now hours key).filter dmarcFailing).map
      (fun r => r.msg_count)).sum)
  rw [← hs] at hb
  exact ⟨⟨key, hne, rfl, hs⟩, hb.1, hb.2⟩

/-- The bucket through which the correlator witnesses are computed:
a single Adobe indicator at confidence 86 with no ATO/auth signals. -/
def witnessEvent : ThreatEvent :=
  ⟨"seed", "domain", "adobe-login.net", "Typosquatting", "Germany", "DE",
   "Adobe", "Credential Harvesting", "Adobe users", 5, 0, 86, "h2", [], 90, 90, 90⟩

/-- A store snapshot with exactly that indicator. -/
def witnessDb : Db := ⟨[witnessEvent], [], []⟩

/-- On the witness store, the correlator emits exactly the Adobe bucket. -/
theorem witness_correlate_eq :
    correlate_campaigns defaultBrandList witnessDb 100 48 20 =
      [bucketCampaign defaultBrandList witnessDb 100 48 "adobe"] := rfl

/-- Membership of the Adobe campaign in the witness ranking. -/
theorem witness_mem :
    bucketCampaign defaultBrandList witnessDb 100 48 "adobe" ∈
      correlate_campaigns defaultBrandList witnessDb 100 48 20 := by
  rw [witness_correlate_eq]
  exact List.mem_singleton.mpr rfl

/-- Witness for C2: the spec's end-to-end scenario 4 — a single indicator
with confidence 86 and no ATO/auth signals scores `clamp(45,99,86+2) = 88`. -/
theorem campaign_score_spec_witness :
    ∃ c ∈ correlate_campaigns defaultBrandList witnessDb 100 48 20,
      c.threat_confidence_score = 88 ∧ 45 ≤ c.threat_confidence_score ∧
        c.threat_confidence_score ≤ 99 := by
  have hb := campaign_score_spec defaultBrandList witnessDb 100 48 20 _ witness_mem
  refine ⟨_, witness_mem, ?_, hb.2.1, hb.2.2⟩
  have hitems : bucketItems witnessDb 100 48 "adobe" = [witnessEvent] := by decide
  have hs := buildCampaign_score defaultBrandList "adobe"
    (bucketItems witnessDb 100 48 "adobe") (bucketAto witnessDb 100 48 "adobe")
    (bucketDmarc witnessDb 100 48 "adobe")
  have hato : bucketAto witnessDb 100 48 "adobe" = [] := by decide
  have hdmarc : bucketDmarc witnessDb 100 48 "adobe" = [] := by decide
  show (buildCampaign defaultBrandList "adobe" (bucketItems witnessDb 100 48 "adobe")
    (bucketAto witnessDb 100 48 "adobe")
    (bucketDmarc witnessDb 100 48 "adobe")).threat_confidence_score = 88
  rw [hs, hitems, hato, hdmarc]
  unfold specScore rawScore
  have hraw : (((([] : List DmarcReport).filter dmarcFailing).map
      (fun r => r.msg_count)).sum) = 0 := rfl
  rw [hraw]
  norm_num [witnessEvent]

/-- **C5.** The correlator's output is sorted by descending
`threatConfidenceScore`, has at most `max(1, limit)` entries, and is the
empty list (not an error) when no indicator falls inside the window. -/
theorem correlate_ranking (brands : List String) (db : Db) (now hours : Int)
    (limit : Nat) :
    (correlate_campaigns brands db now hours limit).Sorted
      (fun a b => b.threat_confidence_score ≤ a.threat_confidence_score) ∧
    (correlate_campaigns brands db now hours limit).length ≤ max 1 limit ∧
    ((∀ t ∈ db.threats, t.occurred_at < now - 3600 * max 1 hours) →
      correlate_campaigns brands db now hours limit = []) := by
  refine ⟨?_, ?_, ?_⟩
  · unfold correlate_campaigns
    split
    · exact List.sorted_nil
    · refine List.Pairwise.sublist (List.take_sublist _ _) ?_
      refine List.Pairwise.imp ?_ (pySort_sorted _ ?_ ?_ _)
      · intro a b h
        exact of_decide_eq_true h
      · intro a b c h1 h2
        exact decide_eq_true (le_trans (of_decide_eq_true h2) (of_decide_eq_true h1))
      · intro a b
        simp only [Bool.or_eq_true, decide_eq_true_eq]
        exact le_total _ _
  · unfold correlate_campaigns
    split
    · simp
    · rw [List.length_take]
      exact min_le_left _ _
  · intro hall
    have hwin : windowThreats db now hours = [] := by
      unfold windowThreats
      rw [List.filter_eq_nil_iff.mpr ?_]
      · rfl
      · intro t ht
        simp only [decide_eq_true_eq]
        have := hall t ht
        omega
    unfold correlate_campaigns
    rw [hwin]
    simp

/-- A store whose only indicator predates the witness query window. -/
def staleDb : Db :=
  ⟨[⟨"seed", "domain", "old.example", "Typosquatting", "Germany", "DE", "Adobe",
     "Unknown", "Unknown", 1, 0, 50, "h3", [], 0, 0, 0⟩], [], []⟩

/-- Witness for C5 at a window containing no indicator. -/
theorem correlate_ranking_witness :
    (correlate_campaigns defaultBrandList staleDb 1000000 1 5).Sorted
      (fun a b => b.threat_confidence_score ≤ a.threat_confidence_score) ∧
    (correlate_campaigns defaultBrandList staleDb 1000000 1 5).length ≤ max 1 5 ∧
    correlate_campaigns defaultBrandList staleDb 1000000 1 5 = [] := by
  obtain ⟨h1, h2, h3⟩ := correlate_ranking defaultBrandList staleDb 1000000 1 5
  exact ⟨h1, h2, h3 (by decide)⟩

/-- The spec's indicator hint for a bucket: the most frequent domain/url
indicator value, else the most frequent ip value, else the brand key. -/
def specHint (key : String) (items : List ThreatEvent) : String :=
  match (mostCommon 1 ((items.filter
      (fun i => i.indicator_type = "domain" ∨ i.indicator_type = "url")).map
        (fun i => i.indicator_value))).head? with
  | some d => d
  | none =>
    match (mostCommon 1 ((items.filter (fun i => i.indicator_type = "ip")).map
        (fun i => i.indicator_value))).head? with
    | some ip => ip
    | none => key

/-- The id built by `buildCampaign` follows the spec's format and hint. -/
theorem buildCampaign_id (brands : List String) (key : String)
    (items : List ThreatEvent) (ato : List AtoEvent) (dmarc : List DmarcReport) :
    (buildCampaign brands key items ato dmarc).campaign_id =
      "LRX-CMP-" ++ upperTake8 (sha1Hex (key ++ ":" ++ specHint key items)) := rfl

/-- **C6.** Every emitted campaign's identifier is
`"LRX-CMP-" + upper(hex(sha1(brandKey + ":" + indicatorHint))[0:8])` with
the hint chosen as most-frequent domain/url value, else most-frequent ip,
else the brand key; and any two campaigns of the same recomputation with
the same brand key carry the identical identifier. -/
theorem campaign_id_spec (brands : List String) (db : Db) (now hours : Int)
    (limit : Nat) (c : Campaign)
    (hc : c ∈ correlate_campaigns brands db now hours limit) :
    c.campaign_id = "LRX-CMP-" ++
      upperTake8 (sha1Hex (c.brand_key ++ ":" ++
        specHint c.brand_key (bucketItems db now hours c.brand_key))) ∧
    ∀ c' ∈ correlate_campaigns brands db now hours limit,
      c'.brand_key = c.brand_key → c'.campaign_id = c.campaign_id := by
  obtain ⟨key, hne, rfl⟩ := correlate_mem hc
  constructor
  · exact buildCampaign_id brands key (bucketItems db now hours key)
      (bucketAto db now hours key) (bucketDmarc db now hours key)
  · intro c' hc' hkey'
    obtain ⟨key', hne', rfl⟩ := correlate_mem hc'
    have hk : key' = key := hkey'
    rw [hk]

/-- Witness for C6: the Adobe bucket's identifier, both concretely
(`sha1("adobe:adobe-login.net")`) and against the spec's format. -/
theorem campaign_id_spec_witness :
    ∃ c ∈ correlate_campaigns defaultBrandList witnessDb 100 48 20,
      c.campaign_id = "LRX-CMP-C3239ACF" ∧
      c.campaign_id = "LRX-CMP-" ++
        upperTake8 (sha1Hex (c.brand_key ++ ":" ++
          specHint c.brand_key (bucketItems witnessDb 100 48 c.brand_key))) := by
  refine ⟨_, witness_mem, ?_,
    (campaign_id_spec defaultBrandList witnessDb 100 48 20 _ witness_mem).1⟩
  decide

end LrxRadar
